import Mathlib

/-!
Verification of the admin-deletion-dashboard account service
(`internal/service/account_service.go`).

The relational store is modelled as lists of rows, one list per table.
Reads (`getUserByEmail`, `getGroupsByOwner`, `getCompaniesByParent`,
`getLocationsByParent`, `getHierarchyCounts`, `GetAuditLogs`) are pure
functions of a `DB` value; in the source they all go through the service's
plain `*sql.DB` handle.  The deletion transaction is modelled by threading
a separate transaction view of the database (`TxState.tx`): soft-delete
writes and the audit insert mutate the transaction view, while the child
enumerations inside `DeleteAccount` read the unchanged base snapshot,
exactly as the Go code reads through `s.db` while writing through `tx`.
On commit the transaction view becomes the new committed state; on any
error the caller keeps the original state (the deferred `tx.Rollback()`).

Database driver failures are modelled by an operation counter: every
fallible primitive (BeginTx, each child-enumeration query, each UPDATE,
the audit INSERT, Commit) consumes one tick, and `failAt = some k` makes
the k-th primitive fail, mirroring an I/O error surfacing at that call.
-/

namespace AdminDeletion

/-- Lowercase comparison of two strings, modelling SQL `LOWER(a) = LOWER(b)`. -/
def lowerEq (a b : String) : Bool :=
  a.data.map Char.toLower == b.data.map Char.toLower

/-- Liveness filter used by every read query in the source:
`(is_deleted = false OR is_deleted IS NULL)`.  `none` models SQL NULL. -/
def isLive (d : Option Bool) : Bool :=
  !(d == some true)

/-- Row of `saastack_user_v1.user_profile` (columns the service touches). -/
structure UserProfile where
  id : String
  email : String
  firstName : String
  lastName : String
  is_deleted : Option Bool
  deleted_by : Option String
  deleted_on : Option Nat
deriving DecidableEq

/-- Row of `saastack_group_v1.groups` (columns the service touches). -/
structure Group where
  id : String
  name : String
  parent : String
  created_by : String
  created_on : Nat
  is_deleted : Option Bool
  deleted_by : Option String
  deleted_on : Option Nat
deriving DecidableEq

/-- Row of `saastack_company_v1.company` (columns the service touches). -/
structure Company where
  id : String
  name : String
  parent : String
  is_deleted : Option Bool
  deleted_by : Option String
  deleted_on : Option Nat
deriving DecidableEq

/-- Row of `saastack_location_v1.location` (columns the service touches). -/
structure Location where
  id : String
  name : String
  parent : String
  is_deleted : Option Bool
  deleted_by : Option String
  deleted_on : Option Nat
deriving DecidableEq

/-- Row of `admin_deletion_audit_log` (the ten inserted columns). -/
structure AuditLog where
  action : String
  deleted_by_email : String
  target_email : String
  target_user_id : String
  group_ids : List String
  reason : String
  deleted_groups : Nat
  deleted_companies : Nat
  deleted_locations : Nat
  created_at : Nat
deriving DecidableEq

/-- The five tables the service reads or writes. -/
structure DB where
  users : List UserProfile
  groups : List Group
  companies : List Company
  locations : List Location
  audit_log : List AuditLog
deriving DecidableEq

/-- models.GroupInfo. -/
structure GroupInfo where
  id : String
  name : String
  companyCount : Nat
  locationCount : Nat
deriving DecidableEq

/-- models.AccountLookupResponse. -/
structure AccountLookupResponse where
  userID : String
  email : String
  firstName : String
  lastName : String
  groups : List GroupInfo
deriving DecidableEq

/-- models.DeleteAccountRequest (DeletedBy is injected by the handler). -/
structure DeleteAccountRequest where
  email : String
  userID : String
  groupIDs : List String
  reason : String
  deletedBy : String
deriving DecidableEq

/-- models.DeleteAccountResponse. -/
structure DeleteAccountResponse where
  success : Bool
  message : String
  deletedGroups : Nat
  deletedCompanies : Nat
  deletedLocations : Nat
  deletedAt : Nat
deriving DecidableEq

/-- getUserByEmail: first live user row whose email matches case-insensitively
(`WHERE LOWER(email) = LOWER($1) AND (is_deleted = false OR is_deleted IS NULL) LIMIT 1`);
`none` models the `sql.ErrNoRows` branch. -/
def getUserByEmail (db : DB) (email : String) : Option UserProfile :=
  (db.users.filter (fun u => lowerEq u.email email && isLive u.is_deleted)).head?

/-- Relation `ORDER BY created_on DESC` sorts groups by. -/
def byCreatedOnDesc (a b : Group) : Prop :=
  b.created_on ≤ a.created_on

instance : DecidableRel byCreatedOnDesc :=
  fun a b => inferInstanceAs (Decidable (b.created_on ≤ a.created_on))

instance : IsTotal Group byCreatedOnDesc :=
  ⟨fun a b => (Nat.le_total a.created_on b.created_on).symm⟩

instance : IsTrans Group byCreatedOnDesc :=
  ⟨fun _ _ _ h1 h2 => Nat.le_trans h2 h1⟩

/-- getGroupsByOwner: live groups with `created_by = userID`, newest first
(`ORDER BY created_on DESC`). -/
def getGroupsByOwner (db : DB) (userID : String) : List Group :=
  List.insertionSort byCreatedOnDesc
    (db.groups.filter (fun g => g.created_by == userID && isLive g.is_deleted))

/-- getCompaniesByParent: live companies with `parent = parentID`. -/
def getCompaniesByParent (db : DB) (parentID : String) : List Company :=
  db.companies.filter (fun c => c.parent == parentID && isLive c.is_deleted)

/-- getLocationsByParent: live locations with `parent = parentID`. -/
def getLocationsByParent (db : DB) (parentID : String) : List Location :=
  db.locations.filter (fun l => l.parent == parentID && isLive l.is_deleted)

/-- getHierarchyCounts: `COUNT(*)` of live companies under the group, and
`COUNT(l.*)` of the join of live locations with live companies under the
group (the join counts location-company row pairs). -/
def getHierarchyCounts (db : DB) (groupID : String) : Nat × Nat :=
  ((db.companies.filter (fun c => c.parent == groupID && isLive c.is_deleted)).length,
   ((db.companies.filter (fun c => c.parent == groupID && isLive c.is_deleted)).flatMap
      (fun c => db.locations.filter (fun l => l.parent == c.id && isLive l.is_deleted))).length)

/-- LookupAccount: find the user, list owned groups, attach hierarchy counts. -/
def LookupAccount (db : DB) (email : String) : Except String AccountLookupResponse :=
  match getUserByEmail db email with
  | none => Except.error ("failed to find user: user not found with email: " ++ email)
  | some user =>
    Except.ok
      { userID := user.id
        email := user.email
        firstName := user.firstName
        lastName := user.lastName
        groups := (getGroupsByOwner db user.id).map (fun g =>
          { id := g.id
            name := g.name
            companyCount := (getHierarchyCounts db g.id).1
            locationCount := (getHierarchyCounts db g.id).2 }) }

/-- softDeleteLocation: `UPDATE ... SET is_deleted = true, deleted_by, deleted_on WHERE id = $3`
against the transaction view. -/
def softDeleteLocation (db : DB) (locationID deletedBy : String) (deletedOn : Nat) : DB :=
  { db with locations := db.locations.map (fun l =>
      if l.id == locationID then
        { l with is_deleted := some true, deleted_by := some deletedBy, deleted_on := some deletedOn }
      else l) }

/-- softDeleteCompany: same UPDATE shape on the company table. -/
def softDeleteCompany (db : DB) (companyID deletedBy : String) (deletedOn : Nat) : DB :=
  { db with companies := db.companies.map (fun c =>
      if c.id == companyID then
        { c with is_deleted := some true, deleted_by := some deletedBy, deleted_on := some deletedOn }
      else c) }

/-- softDeleteGroup: same UPDATE shape on the groups table. -/
def softDeleteGroup (db : DB) (groupID deletedBy : String) (deletedOn : Nat) : DB :=
  { db with groups := db.groups.map (fun g =>
      if g.id == groupID then
        { g with is_deleted := some true, deleted_by := some deletedBy, deleted_on := some deletedOn }
      else g) }

/-- softDeleteUser: same UPDATE shape on the user_profile table. -/
def softDeleteUser (db : DB) (userID deletedBy : String) (deletedOn : Nat) : DB :=
  { db with users := db.users.map (fun u =>
      if u.id == userID then
        { u with is_deleted := some true, deleted_by := some deletedBy, deleted_on := some deletedOn }
      else u) }

/-- Audit row built by createAuditLog's INSERT. -/
def auditEntry (req : DeleteAccountRequest) (dg dc dl ts : Nat) : AuditLog :=
  { action := "ACCOUNT_DELETION"
    deleted_by_email := req.deletedBy
    target_email := req.email
    target_user_id := req.userID
    group_ids := req.groupIDs
    reason := req.reason
    deleted_groups := dg
    deleted_companies := dc
    deleted_locations := dl
    created_at := ts }

/-- createAuditLog: append-only INSERT into admin_deletion_audit_log. -/
def createAuditLog (db : DB) (req : DeleteAccountRequest) (dg dc dl ts : Nat) : DB :=
  { db with audit_log := db.audit_log ++ [auditEntry req dg dc dl ts] }

/-- Write operations performed inside a deletion transaction, in source order. -/
inductive Event where
  | delLocation : String → Event
  | delCompany : String → Event
  | delGroup : String → Event
  | delUser : String → Event
  | auditInsert : AuditLog → Event
deriving DecidableEq

/-- Replay of one transaction write against a database view. -/
def applyEvent (deletedBy : String) (now : Nat) (db : DB) : Event → DB
  | Event.delLocation i => softDeleteLocation db i deletedBy now
  | Event.delCompany i => softDeleteCompany db i deletedBy now
  | Event.delGroup i => softDeleteGroup db i deletedBy now
  | Event.delUser i => softDeleteUser db i deletedBy now
  | Event.auditInsert row => { db with audit_log := db.audit_log ++ [row] }

/-- Replay of a sequence of transaction writes. -/
def applyEvents (deletedBy : String) (now : Nat) (db : DB) (t : List Event) : DB :=
  t.foldl (applyEvent deletedBy now) db

/-- Whether the primitive database operation numbered `k` fails. -/
def opFails (failAt : Option Nat) (k : Nat) : Bool :=
  failAt == some k

/-- In-flight transaction: the transaction view, the count of primitive
database operations performed so far, the three counters, and the trace of
writes issued so far. -/
structure TxState where
  tx : DB
  ops : Nat
  gCnt : Nat
  cCnt : Nat
  lCnt : Nat
  trace : List Event
deriving DecidableEq

/-- Inner loop of DeleteAccount: soft delete each enumerated location,
incrementing `deletedLocations`. -/
def runLocations (failAt : Option Nat) (deletedBy : String) (now : Nat) :
    List Location → TxState → Except String TxState
  | [], st => Except.ok st
  | l :: rest, st =>
    if opFails failAt st.ops then Except.error ("failed to delete location " ++ l.id)
    else runLocations failAt deletedBy now rest
      { st with
        tx := softDeleteLocation st.tx l.id deletedBy now
        ops := st.ops + 1
        lCnt := st.lCnt + 1
        trace := st.trace ++ [Event.delLocation l.id] }

/-- Middle loop of DeleteAccount: for each company, enumerate its live
locations from the base snapshot (the plain `s.db` handle), delete them,
then delete the company, incrementing `deletedCompanies`. -/
def runCompanies (base : DB) (failAt : Option Nat) (deletedBy : String) (now : Nat) :
    List Company → TxState → Except String TxState
  | [], st => Except.ok st
  | c :: rest, st =>
    if opFails failAt st.ops then Except.error ("failed to get locations for company " ++ c.id)
    else
      match runLocations failAt deletedBy now (getLocationsByParent base c.id)
          { st with ops := st.ops + 1 } with
      | Except.error e => Except.error e
      | Except.ok st2 =>
        if opFails failAt st2.ops then Except.error ("failed to delete company " ++ c.id)
        else runCompanies base failAt deletedBy now rest
          { st2 with
            tx := softDeleteCompany st2.tx c.id deletedBy now
            ops := st2.ops + 1
            cCnt := st2.cCnt + 1
            trace := st2.trace ++ [Event.delCompany c.id] }

/-- Outer loop of DeleteAccount: for each requested group id (in order),
enumerate its live companies from the base snapshot, process them, then
delete the group, incrementing `deletedGroups`. -/
def runGroups (base : DB) (failAt : Option Nat) (deletedBy : String) (now : Nat) :
    List String → TxState → Except String TxState
  | [], st => Except.ok st
  | gid :: rest, st =>
    if opFails failAt st.ops then Except.error ("failed to get companies for group " ++ gid)
    else
      match runCompanies base failAt deletedBy now (getCompaniesByParent base gid)
          { st with ops := st.ops + 1 } with
      | Except.error e => Except.error e
      | Except.ok st2 =>
        if opFails failAt st2.ops then Except.error ("failed to delete group " ++ gid)
        else runGroups base failAt deletedBy now rest
          { st2 with
            tx := softDeleteGroup st2.tx gid deletedBy now
            ops := st2.ops + 1
            gCnt := st2.gCnt + 1
            trace := st2.trace ++ [Event.delGroup gid] }

/-- DeleteAccount: one transaction; on any failure the caller keeps the
original committed state (deferred rollback), on commit the transaction view
becomes the committed state.  Operation 0 is BeginTx, then the loops, then
soft-deleting the user, the audit INSERT, and Commit. -/
def DeleteAccount (db : DB) (req : DeleteAccountRequest) (now : Nat) (failAt : Option Nat) :
    DB × Except String DeleteAccountResponse :=
  if opFails failAt 0 then (db, Except.error "failed to start transaction")
  else
    match runGroups db failAt req.deletedBy now req.groupIDs ⟨db, 1, 0, 0, 0, []⟩ with
    | Except.error e => (db, Except.error e)
    | Except.ok st =>
      if opFails failAt st.ops then (db, Except.error "failed to delete user")
      else
        let st1 : TxState :=
          { st with
            tx := softDeleteUser st.tx req.userID req.deletedBy now
            ops := st.ops + 1
            trace := st.trace ++ [Event.delUser req.userID] }
        if opFails failAt st1.ops then (db, Except.error "failed to create audit log")
        else
          let st2 : TxState :=
            { st1 with
              tx := createAuditLog st1.tx req st1.gCnt st1.cCnt st1.lCnt now
              ops := st1.ops + 1
              trace := st1.trace ++ [Event.auditInsert (auditEntry req st1.gCnt st1.cCnt st1.lCnt now)] }
          if opFails failAt st2.ops then (db, Except.error "failed to commit transaction")
          else
            (st2.tx, Except.ok
              { success := true
                message := "Account and selected hierarchy deleted successfully"
                deletedGroups := st2.gCnt
                deletedCompanies := st2.cCnt
                deletedLocations := st2.lCnt
                deletedAt := now })

/-- Relation `ORDER BY created_at DESC` sorts audit rows by. -/
def byCreatedAtDesc (a b : AuditLog) : Prop :=
  b.created_at ≤ a.created_at

instance : DecidableRel byCreatedAtDesc :=
  fun a b => inferInstanceAs (Decidable (b.created_at ≤ a.created_at))

instance : IsTotal AuditLog byCreatedAtDesc :=
  ⟨fun a b => (Nat.le_total a.created_at b.created_at).symm⟩

instance : IsTrans AuditLog byCreatedAtDesc :=
  ⟨fun _ _ _ h1 h2 => Nat.le_trans h2 h1⟩

/-- Columns GetAuditLogs scans from each audit row. -/
structure AuditLogView where
  action : String
  deleted_by_email : String
  target_email : String
  target_user_id : String
  group_ids : List String
  reason : String
  created_at : Nat
deriving DecidableEq

/-- Projection performed by GetAuditLogs' SELECT list. -/
def toAuditLogView (a : AuditLog) : AuditLogView :=
  { action := a.action
    deleted_by_email := a.deleted_by_email
    target_email := a.target_email
    target_user_id := a.target_user_id
    group_ids := a.group_ids
    reason := a.reason
    created_at := a.created_at }

/-- GetAuditLogs: `ORDER BY created_at DESC LIMIT $1 OFFSET $2`. -/
def GetAuditLogs (db : DB) (limit offset : Nat) : List AuditLogView :=
  (((List.insertionSort byCreatedAtDesc db.audit_log).drop offset).take limit).map toAuditLogView

/-- Sequence of writes a fault-free DeleteAccount issues, read off the
instrumented run. -/
def DeleteAccountTrace (db : DB) (req : DeleteAccountRequest) (now : Nat) : List Event :=
  match runGroups db none req.deletedBy now req.groupIDs ⟨db, 1, 0, 0, 0, []⟩ with
  | Except.error _ => []
  | Except.ok st =>
    st.trace ++ [Event.delUser req.userID, Event.auditInsert (auditEntry req st.gCnt st.cCnt st.lCnt now)]

/-- Write events for the locations of one company: each enumerated live
location, then the company itself. -/
def companyTrace (base : DB) (c : Company) : List Event :=
  (getLocationsByParent base c.id).map (fun l => Event.delLocation l.id) ++ [Event.delCompany c.id]

/-- Write events for one requested group: its live companies' segments,
then the group itself. -/
def groupTrace (base : DB) (gid : String) : List Event :=
  (getCompaniesByParent base gid).flatMap (companyTrace base) ++ [Event.delGroup gid]

/-- Write events for the whole requested group list. -/
def groupsTrace (base : DB) (gids : List String) : List Event :=
  gids.flatMap (groupTrace base)

/-- Company ids enumerated (and hence soft-deleted and counted) by a
fault-free run over `gids`. -/
def delCompIds (base : DB) (gids : List String) : List String :=
  gids.flatMap (fun gid => (getCompaniesByParent base gid).map (fun c => c.id))

/-- Location ids enumerated (and hence soft-deleted and counted) by a
fault-free run over `gids`. -/
def delLocIds (base : DB) (gids : List String) : List String :=
  gids.flatMap (fun gid => (getCompaniesByParent base gid).flatMap
    (fun c => (getLocationsByParent base c.id).map (fun l => l.id)))

/-- Primitive-operation budget of one company: its location query, one
UPDATE per location, and its own UPDATE. -/
def companyOps (base : DB) (c : Company) : Nat :=
  1 + (getLocationsByParent base c.id).length + 1

/-- Primitive-operation budget of one requested group id. -/
def groupOps (base : DB) (gid : String) : Nat :=
  1 + ((getCompaniesByParent base gid).map (companyOps base)).sum + 1

/-- Total primitive operations a full run performs: BeginTx, the loops, the
user UPDATE, the audit INSERT, Commit. -/
def totalOps (base : DB) (gids : List String) : Nat :=
  1 + (gids.map (groupOps base)).sum + 3

theorem opFails_none (k : Nat) : opFails none k = false := rfl

theorem applyEvents_append (actor : String) (now : Nat) (db : DB) (a b : List Event) :
    applyEvents actor now db (a ++ b) = applyEvents actor now (applyEvents actor now db a) b :=
  List.foldl_append _ _ _ _

theorem runLocations_none (actor : String) (now : Nat) (locs : List Location) :
    ∀ st : TxState,
    runLocations none actor now locs st =
      Except.ok
        { tx := applyEvents actor now st.tx (locs.map (fun l => Event.delLocation l.id))
          ops := st.ops + locs.length
          gCnt := st.gCnt
          cCnt := st.cCnt
          lCnt := st.lCnt + locs.length
          trace := st.trace ++ locs.map (fun l => Event.delLocation l.id) } := by
  induction locs with
  | nil => intro st; simp [runLocations, applyEvents]
  | cons l rest ih =>
    intro st
    rw [runLocations]
    simp only [opFails_none, Bool.false_eq_true, if_false, ih]
    simp only [Except.ok.injEq, TxState.mk.injEq, List.map_cons, applyEvents, List.foldl_cons,
      applyEvent, List.length_cons, List.append_assoc, List.singleton_append]
    and_intros <;> first | trivial | omega

theorem runCompanies_none (base : DB) (actor : String) (now : Nat) (comps : List Company) :
    ∀ st : TxState,
    runCompanies base none actor now comps st =
      Except.ok
        { tx := applyEvents actor now st.tx (comps.flatMap (companyTrace base))
          ops := st.ops + (comps.map (companyOps base)).sum
          gCnt := st.gCnt
          cCnt := st.cCnt + comps.length
          lCnt := st.lCnt + (comps.flatMap (fun c => (getLocationsByParent base c.id).map (fun l => l.id))).length
          trace := st.trace ++ comps.flatMap (companyTrace base) } := by
  induction comps with
  | nil => intro st; simp [runCompanies, applyEvents]
  | cons c rest ih =>
    intro st
    rw [runCompanies]
    simp only [opFails_none, Bool.false_eq_true, if_false, runLocations_none, ih]
    simp only [Except.ok.injEq, TxState.mk.injEq, List.flatMap_cons, List.map_cons,
      companyTrace, companyOps, List.length_append, List.length_map, List.length_cons,
      List.append_assoc, List.singleton_append, List.sum_cons,
      applyEvents_append]
    and_intros <;> first | trivial | omega | simp [applyEvents, applyEvent]

theorem runGroups_none (base : DB) (actor : String) (now : Nat) (gids : List String) :
    ∀ st : TxState,
    runGroups base none actor now gids st =
      Except.ok
        { tx := applyEvents actor now st.tx (groupsTrace base gids)
          ops := st.ops + (gids.map (groupOps base)).sum
          gCnt := st.gCnt + gids.length
          cCnt := st.cCnt + (delCompIds base gids).length
          lCnt := st.lCnt + (delLocIds base gids).length
          trace := st.trace ++ groupsTrace base gids } := by
  induction gids with
  | nil => intro st; simp [runGroups, applyEvents, groupsTrace, delCompIds, delLocIds]
  | cons gid rest ih =>
    intro st
    rw [runGroups]
    simp only [opFails_none, Bool.false_eq_true, if_false, runCompanies_none, ih]
    simp only [Except.ok.injEq, TxState.mk.injEq, groupsTrace, delCompIds, delLocIds,
      List.flatMap_cons, groupTrace, groupOps, List.map_cons, List.sum_cons,
      List.length_append, List.length_map, List.length_flatMap, List.length_cons,
      List.append_assoc, List.singleton_append, applyEvents_append]
    and_intros <;> first | trivial | omega | simp [applyEvents, applyEvent]

theorem DeleteAccountTrace_eq (db : DB) (req : DeleteAccountRequest) (now : Nat) :
    DeleteAccountTrace db req now =
      groupsTrace db req.groupIDs ++
        [Event.delUser req.userID,
         Event.auditInsert (auditEntry req req.groupIDs.length (delCompIds db req.groupIDs).length
           (delLocIds db req.groupIDs).length now)] := by
  rw [DeleteAccountTrace, runGroups_none]
  simp

theorem DeleteAccount_none (db : DB) (req : DeleteAccountRequest) (now : Nat) :
    DeleteAccount db req now none =
      (applyEvents req.deletedBy now db (DeleteAccountTrace db req now),
       Except.ok
         { success := true
           message := "Account and selected hierarchy deleted successfully"
           deletedGroups := req.groupIDs.length
           deletedCompanies := (delCompIds db req.groupIDs).length
           deletedLocations := (delLocIds db req.groupIDs).length
           deletedAt := now }) := by
  rw [DeleteAccount, DeleteAccountTrace_eq, runGroups_none]
  simp only [opFails_none, Bool.false_eq_true, if_false]
  simp [applyEvents_append, applyEvents, applyEvent, createAuditLog]

/-- Location ids of the delete-location events in a trace. -/
def locIdsOfTrace (t : List Event) : List String :=
  t.filterMap (fun e => match e with | Event.delLocation i => some i | _ => none)

/-- Company ids of the delete-company events in a trace. -/
def compIdsOfTrace (t : List Event) : List String :=
  t.filterMap (fun e => match e with | Event.delCompany i => some i | _ => none)

/-- Group ids of the delete-group events in a trace. -/
def grpIdsOfTrace (t : List Event) : List String :=
  t.filterMap (fun e => match e with | Event.delGroup i => some i | _ => none)

/-- User ids of the delete-user events in a trace. -/
def userIdsOfTrace (t : List Event) : List String :=
  t.filterMap (fun e => match e with | Event.delUser i => some i | _ => none)

/-- Audit rows of the audit-insert events in a trace. -/
def auditRowsOfTrace (t : List Event) : List AuditLog :=
  t.filterMap (fun e => match e with | Event.auditInsert row => some row | _ => none)

/-- Field changes one soft-delete UPDATE makes to a location row. -/
def markLocation (actor : String) (now : Nat) (l : Location) : Location :=
  { l with is_deleted := some true, deleted_by := some actor, deleted_on := some now }

/-- Field changes one soft-delete UPDATE makes to a company row. -/
def markCompany (actor : String) (now : Nat) (c : Company) : Company :=
  { c with is_deleted := some true, deleted_by := some actor, deleted_on := some now }

/-- Field changes one soft-delete UPDATE makes to a group row. -/
def markGroup (actor : String) (now : Nat) (g : Group) : Group :=
  { g with is_deleted := some true, deleted_by := some actor, deleted_on := some now }

/-- Field changes one soft-delete UPDATE makes to a user row. -/
def markUser (actor : String) (now : Nat) (u : UserProfile) : UserProfile :=
  { u with is_deleted := some true, deleted_by := some actor, deleted_on := some now }

theorem applyEvents_locations (actor : String) (now : Nat) (t : List Event) :
    ∀ db : DB, (applyEvents actor now db t).locations =
      db.locations.map (fun l => if l.id ∈ locIdsOfTrace t then markLocation actor now l else l) := by
  induction t with
  | nil => intro db; simp [applyEvents, locIdsOfTrace]
  | cons e rest ih =>
    intro db
    have step : applyEvents actor now db (e :: rest) = applyEvents actor now (applyEvent actor now db e) rest := rfl
    rw [step, ih]
    cases e with
    | delLocation i =>
      show (db.locations.map fun l => if l.id == i then markLocation actor now l else l).map _ = _
      rw [List.map_map]
      refine List.map_congr_left (fun l _ => ?_)
      simp only [Function.comp, locIdsOfTrace, List.filterMap_cons]
      by_cases h1 : l.id = i
      · by_cases h2 : l.id ∈ locIdsOfTrace rest <;>
          simp [h1, h2, markLocation, locIdsOfTrace]
      · have hb : (l.id == i) = false := by simp [h1]
        by_cases h2 : l.id ∈ locIdsOfTrace rest <;>
          simp [hb, h1, h2, locIdsOfTrace]
    | delCompany i => simp [applyEvent, softDeleteCompany, locIdsOfTrace, List.filterMap_cons]
    | delGroup i => simp [applyEvent, softDeleteGroup, locIdsOfTrace, List.filterMap_cons]
    | delUser i => simp [applyEvent, softDeleteUser, locIdsOfTrace, List.filterMap_cons]
    | auditInsert row => simp [applyEvent, locIdsOfTrace, List.filterMap_cons]

theorem applyEvents_companies (actor : String) (now : Nat) (t : List Event) :
    ∀ db : DB, (applyEvents actor now db t).companies =
      db.companies.map (fun c => if c.id ∈ compIdsOfTrace t then markCompany actor now c else c) := by
  induction t with
  | nil => intro db; simp [applyEvents, compIdsOfTrace]
  | cons e rest ih =>
    intro db
    have step : applyEvents actor now db (e :: rest) = applyEvents actor now (applyEvent actor now db e) rest := rfl
    rw [step, ih]
    cases e with
    | delCompany i =>
      show (db.companies.map fun c => if c.id == i then markCompany actor now c else c).map _ = _
      rw [List.map_map]
      refine List.map_congr_left (fun c _ => ?_)
      simp only [Function.comp, compIdsOfTrace, List.filterMap_cons]
      by_cases h1 : c.id = i
      · by_cases h2 : c.id ∈ compIdsOfTrace rest <;>
          simp [h1, h2, markCompany, compIdsOfTrace]
      · have hb : (c.id == i) = false := by simp [h1]
        by_cases h2 : c.id ∈ compIdsOfTrace rest <;>
          simp [hb, h1, h2, compIdsOfTrace]
    | delLocation i => simp [applyEvent, softDeleteLocation, compIdsOfTrace, List.filterMap_cons]
    | delGroup i => simp [applyEvent, softDeleteGroup, compIdsOfTrace, List.filterMap_cons]
    | delUser i => simp [applyEvent, softDeleteUser, compIdsOfTrace, List.filterMap_cons]
    | auditInsert row => simp [applyEvent, compIdsOfTrace, List.filterMap_cons]

theorem applyEvents_groups (actor : String) (now : Nat) (t : List Event) :
    ∀ db : DB, (applyEvents actor now db t).groups =
      db.groups.map (fun g => if g.id ∈ grpIdsOfTrace t then markGroup actor now g else g) := by
  induction t with
  | nil => intro db; simp [applyEvents, grpIdsOfTrace]
  | cons e rest ih =>
    intro db
    have step : applyEvents actor now db (e :: rest) = applyEvents actor now (applyEvent actor now db e) rest := rfl
    rw [step, ih]
    cases e with
    | delGroup i =>
      show (db.groups.map fun g => if g.id == i then markGroup actor now g else g).map _ = _
      rw [List.map_map]
      refine List.map_congr_left (fun g _ => ?_)
      simp only [Function.comp, grpIdsOfTrace, List.filterMap_cons]
      by_cases h1 : g.id = i
      · by_cases h2 : g.id ∈ grpIdsOfTrace rest <;>
          simp [h1, h2, markGroup, grpIdsOfTrace]
      · have hb : (g.id == i) = false := by simp [h1]
        by_cases h2 : g.id ∈ grpIdsOfTrace rest <;>
          simp [hb, h1, h2, grpIdsOfTrace]
    | delLocation i => simp [applyEvent, softDeleteLocation, grpIdsOfTrace, List.filterMap_cons]
    | delCompany i => simp [applyEvent, softDeleteCompany, grpIdsOfTrace, List.filterMap_cons]
    | delUser i => simp [applyEvent, softDeleteUser, grpIdsOfTrace, List.filterMap_cons]
    | auditInsert row => simp [applyEvent, grpIdsOfTrace, List.filterMap_cons]

theorem applyEvents_users (actor : String) (now : Nat) (t : List Event) :
    ∀ db : DB, (applyEvents actor now db t).users =
      db.users.map (fun u => if u.id ∈ userIdsOfTrace t then markUser actor now u else u) := by
  induction t with
  | nil => intro db; simp [applyEvents, userIdsOfTrace]
  | cons e rest ih =>
    intro db
    have step : applyEvents actor now db (e :: rest) = applyEvents actor now (applyEvent actor now db e) rest := rfl
    rw [step, ih]
    cases e with
    | delUser i =>
      show (db.users.map fun u => if u.id == i then markUser actor now u else u).map _ = _
      rw [List.map_map]
      refine List.map_congr_left (fun u _ => ?_)
      simp only [Function.comp, userIdsOfTrace, List.filterMap_cons]
      by_cases h1 : u.id = i
      · by_cases h2 : u.id ∈ userIdsOfTrace rest <;>
          simp [h1, h2, markUser, userIdsOfTrace]
      · have hb : (u.id == i) = false := by simp [h1]
        by_cases h2 : u.id ∈ userIdsOfTrace rest <;>
          simp [hb, h1, h2, userIdsOfTrace]
    | delLocation i => simp [applyEvent, softDeleteLocation, userIdsOfTrace, List.filterMap_cons]
    | delCompany i => simp [applyEvent, softDeleteCompany, userIdsOfTrace, List.filterMap_cons]
    | delGroup i => simp [applyEvent, softDeleteGroup, userIdsOfTrace, List.filterMap_cons]
    | auditInsert row => simp [applyEvent, userIdsOfTrace, List.filterMap_cons]

theorem applyEvents_audit (actor : String) (now : Nat) (t : List Event) :
    ∀ db : DB, (applyEvents actor now db t).audit_log = db.audit_log ++ auditRowsOfTrace t := by
  induction t with
  | nil => intro db; simp [applyEvents, auditRowsOfTrace]
  | cons e rest ih =>
    intro db
    have step : applyEvents actor now db (e :: rest) = applyEvents actor now (applyEvent actor now db e) rest := rfl
    rw [step, ih]
    cases e with
    | delLocation i => simp [applyEvent, softDeleteLocation, auditRowsOfTrace, List.filterMap_cons]
    | delCompany i => simp [applyEvent, softDeleteCompany, auditRowsOfTrace, List.filterMap_cons]
    | delGroup i => simp [applyEvent, softDeleteGroup, auditRowsOfTrace, List.filterMap_cons]
    | delUser i => simp [applyEvent, softDeleteUser, auditRowsOfTrace, List.filterMap_cons]
    | auditInsert row => simp [applyEvent, auditRowsOfTrace, List.filterMap_cons]

theorem filterMap_comp_eq_map {A B C : Type} (f : A → B) (g : B → Option C) (h : A → C)
    (hfg : ∀ a, g (f a) = some (h a)) (l : List A) : List.filterMap (g ∘ f) l = l.map h := by
  induction l <;> simp [List.filterMap_cons, Function.comp, *]

theorem filterMap_comp_eq_nil {A B C : Type} (f : A → B) (g : B → Option C)
    (hfg : ∀ a, g (f a) = none) (l : List A) : List.filterMap (g ∘ f) l = ([] : List C) := by
  induction l <;> simp [List.filterMap_cons, Function.comp, *]

theorem flatMap_single {A B : Type} (f : A → B) (l : List A) :
    (l.flatMap fun a => [f a]) = l.map f := by
  induction l <;> simp [*]

theorem flatMap_const_nil {A B : Type} (l : List A) :
    (l.flatMap fun _ => ([] : List B)) = [] := by
  induction l <;> simp [*]

theorem locIdsOfTrace_full (db : DB) (gids : List String) (uid : String) (row : AuditLog) :
    locIdsOfTrace (groupsTrace db gids ++ [Event.delUser uid, Event.auditInsert row]) =
      delLocIds db gids := by
  simp [locIdsOfTrace, groupsTrace, groupTrace, companyTrace, delLocIds, List.filterMap_bind, List.filterMap_append, List.filterMap_map, flatMap_single, flatMap_const_nil,
    filterMap_comp_eq_map (fun l : Location => Event.delLocation l.id) (fun e => match e with | Event.delLocation i => some i | _ => none) (fun l => l.id) (fun a => rfl)]

theorem compIdsOfTrace_full (db : DB) (gids : List String) (uid : String) (row : AuditLog) :
    compIdsOfTrace (groupsTrace db gids ++ [Event.delUser uid, Event.auditInsert row]) =
      delCompIds db gids := by
  simp [compIdsOfTrace, groupsTrace, groupTrace, companyTrace, delCompIds, List.filterMap_bind, List.filterMap_append, List.filterMap_map, flatMap_single, flatMap_const_nil,
    filterMap_comp_eq_nil (fun l : Location => Event.delLocation l.id) (fun e => match e with | Event.delCompany i => some i | _ => none) (fun a => rfl)]

theorem grpIdsOfTrace_full (db : DB) (gids : List String) (uid : String) (row : AuditLog) :
    grpIdsOfTrace (groupsTrace db gids ++ [Event.delUser uid, Event.auditInsert row]) = gids := by
  simp [grpIdsOfTrace, groupsTrace, groupTrace, companyTrace, List.filterMap_bind, List.filterMap_append, List.filterMap_map, flatMap_single, flatMap_const_nil,
    filterMap_comp_eq_nil (fun l : Location => Event.delLocation l.id) (fun e => match e with | Event.delGroup i => some i | _ => none) (fun a => rfl)]

theorem userIdsOfTrace_full (db : DB) (gids : List String) (uid : String) (row : AuditLog) :
    userIdsOfTrace (groupsTrace db gids ++ [Event.delUser uid, Event.auditInsert row]) = [uid] := by
  simp [userIdsOfTrace, groupsTrace, groupTrace, companyTrace, List.filterMap_bind, List.filterMap_append, List.filterMap_map, flatMap_single, flatMap_const_nil,
    filterMap_comp_eq_nil (fun l : Location => Event.delLocation l.id) (fun e => match e with | Event.delUser i => some i | _ => none) (fun a => rfl)]

theorem auditRowsOfTrace_full (db : DB) (gids : List String) (uid : String) (row : AuditLog) :
    auditRowsOfTrace (groupsTrace db gids ++ [Event.delUser uid, Event.auditInsert row]) = [row] := by
  simp [auditRowsOfTrace, groupsTrace, groupTrace, companyTrace, List.filterMap_bind, List.filterMap_append, List.filterMap_map, flatMap_single, flatMap_const_nil,
    filterMap_comp_eq_nil (fun l : Location => Event.delLocation l.id) (fun e => match e with | Event.auditInsert i => some i | _ => none) (fun a => rfl)]

theorem opFails_some (k n : Nat) : opFails (some k) n = decide (k = n) := by
  by_cases h : k = n <;> simp [opFails, h]

theorem runLocations_frame (failAt : Option Nat) (actor : String) (now : Nat) (locs : List Location) :
    ∀ st : TxState, (∀ k, failAt = some k → k < st.ops ∨ st.ops + locs.length ≤ k) →
    runLocations failAt actor now locs st = runLocations none actor now locs st := by
  induction locs with
  | nil => intro st _; rfl
  | cons l rest ih =>
    intro st h
    rw [runLocations, runLocations]
    have hf : opFails failAt st.ops = false := by
      cases failAt with
      | none => rfl
      | some k =>
        rcases h k rfl with h1 | h2
        · rw [opFails_some]; simp; omega
        · rw [opFails_some]; simp at h2 ⊢; omega
    rw [hf, opFails_none]
    simp only [Bool.false_eq_true, if_false]
    refine ih _ (fun k hk => ?_)
    rcases h k hk with h1 | h2
    · left; simp; omega
    · right; simp at h2 ⊢; omega

theorem runLocations_fault (actor : String) (now : Nat) (locs : List Location) :
    ∀ (st : TxState) (k : Nat), st.ops ≤ k → k < st.ops + locs.length →
    ∃ e, runLocations (some k) actor now locs st = Except.error e := by
  induction locs with
  | nil => intro st k h1 h2; simp at h2; omega
  | cons l rest ih =>
    intro st k h1 h2
    rw [runLocations]
    by_cases hk : k = st.ops
    · rw [hk, opFails_some]
      simp
    · have hf : opFails (some k) st.ops = false := by rw [opFails_some]; simp [hk]
      rw [hf]
      simp only [Bool.false_eq_true, if_false]
      refine ih _ k (by simp; omega) (by simp at h2 ⊢; omega)

theorem runCompanies_frame (base : DB) (failAt : Option Nat) (actor : String) (now : Nat)
    (comps : List Company) :
    ∀ st : TxState, (∀ k, failAt = some k → k < st.ops ∨ st.ops + (comps.map (companyOps base)).sum ≤ k) →
    runCompanies base failAt actor now comps st = runCompanies base none actor now comps st := by
  induction comps with
  | nil => intro st _; rfl
  | cons c rest ih =>
    intro st h
    rw [runCompanies, runCompanies]
    have hb : ∀ k, failAt = some k →
        k < st.ops ∨ st.ops + (companyOps base c + (rest.map (companyOps base)).sum) ≤ k := by
      intro k hk
      rcases h k hk with h1 | h2
      · exact Or.inl h1
      · right; simp at h2; omega
    have hf : opFails failAt st.ops = false := by
      cases failAt with
      | none => rfl
      | some k =>
        rcases hb k rfl with h1 | h2
        · rw [opFails_some]; simp; omega
        · rw [opFails_some]; simp [companyOps] at h2 ⊢; omega
    rw [hf, opFails_none]
    simp only [Bool.false_eq_true, if_false]
    rw [runLocations_frame]
    · rw [runLocations_none]
      simp only []
      have hf2 : opFails failAt (st.ops + 1 + (getLocationsByParent base c.id).length) = false := by
        cases failAt with
        | none => rfl
        | some k =>
          rcases hb k rfl with h1 | h2
          · rw [opFails_some]; simp; omega
          · rw [opFails_some]; simp [companyOps] at h2 ⊢; omega
      rw [hf2, opFails_none]
      simp only [Bool.false_eq_true, if_false]
      refine ih _ (fun k hk => ?_)
      rcases hb k hk with h1 | h2
      · left; simp; omega
      · right; simp [companyOps] at h2 ⊢; omega
    · intro k hk
      rcases hb k hk with h1 | h2
      · left; simp; omega
      · right; simp [companyOps] at h2 ⊢; omega

theorem runCompanies_fault (base : DB) (actor : String) (now : Nat) (comps : List Company) :
    ∀ (st : TxState) (k : Nat), st.ops ≤ k → k < st.ops + (comps.map (companyOps base)).sum →
    ∃ e, runCompanies base (some k) actor now comps st = Except.error e := by
  induction comps with
  | nil => intro st k h1 h2; simp at h2; omega
  | cons c rest ih =>
    intro st k h1 h2
    rw [runCompanies]
    by_cases hk : k = st.ops
    · rw [hk, opFails_some]
      simp
    · have hf : opFails (some k) st.ops = false := by rw [opFails_some]; simp [hk]
      rw [hf]
      simp only [Bool.false_eq_true, if_false]
      by_cases hloc : k < st.ops + 1 + (getLocationsByParent base c.id).length
      · obtain ⟨e, he⟩ := runLocations_fault actor now (getLocationsByParent base c.id)
          { st with ops := st.ops + 1 } k (by simp; omega) (by simp; omega)
        rw [he]
        exact ⟨e, rfl⟩
      · rw [runLocations_frame]
        · rw [runLocations_none]
          simp only []
          by_cases hcu : k = st.ops + 1 + (getLocationsByParent base c.id).length
          · have : opFails (some k)
                (st.ops + 1 + (getLocationsByParent base c.id).length) = true := by
              rw [opFails_some]; simp; omega
            rw [this]
            simp
          · have hf2 : opFails (some k)
                (st.ops + 1 + (getLocationsByParent base c.id).length) = false := by
              rw [opFails_some]; simp; omega
            rw [hf2]
            simp only [Bool.false_eq_true, if_false]
            refine ih _ k (by simp; omega) ?_
            simp [companyOps] at h2 ⊢
            omega
        · intro k2 hk2
          injection hk2 with hk2
          subst hk2
          right
          simp
          omega

theorem runGroups_frame (base : DB) (failAt : Option Nat) (actor : String) (now : Nat)
    (gids : List String) :
    ∀ st : TxState, (∀ k, failAt = some k → k < st.ops ∨ st.ops + (gids.map (groupOps base)).sum ≤ k) →
    runGroups base failAt actor now gids st = runGroups base none actor now gids st := by
  induction gids with
  | nil => intro st _; rfl
  | cons gid rest ih =>
    intro st h
    rw [runGroups, runGroups]
    have hb : ∀ k, failAt = some k →
        k < st.ops ∨ st.ops + (groupOps base gid + (rest.map (groupOps base)).sum) ≤ k := by
      intro k hk
      rcases h k hk with h1 | h2
      · exact Or.inl h1
      · right; simp at h2; omega
    have hf : opFails failAt st.ops = false := by
      cases failAt with
      | none => rfl
      | some k =>
        rcases hb k rfl with h1 | h2
        · rw [opFails_some]; simp; omega
        · rw [opFails_some]; simp [groupOps] at h2 ⊢; omega
    rw [hf, opFails_none]
    simp only [Bool.false_eq_true, if_false]
    rw [runCompanies_frame]
    · rw [runCompanies_none]
      simp only []
      have hf2 : opFails failAt
          (st.ops + 1 + ((getCompaniesByParent base gid).map (companyOps base)).sum) = false := by
        cases failAt with
        | none => rfl
        | some k =>
          rcases hb k rfl with h1 | h2
          · rw [opFails_some]; simp; omega
          · rw [opFails_some]; simp [groupOps] at h2 ⊢; omega
      rw [hf2, opFails_none]
      simp only [Bool.false_eq_true, if_false]
      refine ih _ (fun k hk => ?_)
      rcases hb k hk with h1 | h2
      · left; simp; omega
      · right; simp [groupOps] at h2 ⊢; omega
    · intro k hk
      rcases hb k hk with h1 | h2
      · left; simp; omega
      · right; simp [groupOps] at h2 ⊢; omega

theorem runGroups_fault (base : DB) (actor : String) (now : Nat) (gids : List String) :
    ∀ (st : TxState) (k : Nat), st.ops ≤ k → k < st.ops + (gids.map (groupOps base)).sum →
    ∃ e, runGroups base (some k) actor now gids st = Except.error e := by
  induction gids with
  | nil => intro st k h1 h2; simp at h2; omega
  | cons gid rest ih =>
    intro st k h1 h2
    rw [runGroups]
    by_cases hk : k = st.ops
    · rw [hk, opFails_some]
      simp
    · have hf : opFails (some k) st.ops = false := by rw [opFails_some]; simp [hk]
      rw [hf]
      simp only [Bool.false_eq_true, if_false]
      by_cases hcs : k < st.ops + 1 + ((getCompaniesByParent base gid).map (companyOps base)).sum
      · obtain ⟨e, he⟩ := runCompanies_fault base actor now (getCompaniesByParent base gid)
          { st with ops := st.ops + 1 } k (by simp; omega) (by simp; omega)
        rw [he]
        exact ⟨e, rfl⟩
      · rw [runCompanies_frame]
        · rw [runCompanies_none]
          simp only []
          by_cases hgu : k = st.ops + 1 + ((getCompaniesByParent base gid).map (companyOps base)).sum
          · have : opFails (some k)
                (st.ops + 1 + ((getCompaniesByParent base gid).map (companyOps base)).sum) = true := by
              rw [opFails_some]; simp; omega
            rw [this]
            simp
          · have hf2 : opFails (some k)
                (st.ops + 1 + ((getCompaniesByParent base gid).map (companyOps base)).sum) = false := by
              rw [opFails_some]; simp; omega
            rw [hf2]
            simp only [Bool.false_eq_true, if_false]
            refine ih _ k (by simp; omega) ?_
            simp [groupOps] at h2 ⊢
            omega
        · intro k2 hk2
          injection hk2 with hk2
          subst hk2
          right
          simp
          omega

theorem DeleteAccount_frame (db : DB) (req : DeleteAccountRequest) (now : Nat) (failAt : Option Nat)
    (h : ∀ k, failAt = some k → totalOps db req.groupIDs ≤ k) :
    DeleteAccount db req now failAt = DeleteAccount db req now none := by
  have htot : totalOps db req.groupIDs = 1 + (req.groupIDs.map (groupOps db)).sum + 3 := rfl
  rw [DeleteAccount, DeleteAccount]
  have h0 : opFails failAt 0 = false := by
    cases failAt with
    | none => rfl
    | some k => have := h k rfl; rw [opFails_some]; simp; omega
  rw [h0, opFails_none]
  simp only [Bool.false_eq_true, if_false]
  rw [runGroups_frame]
  · rw [runGroups_none]
    simp only []
    have h1 : opFails failAt (1 + (req.groupIDs.map (groupOps db)).sum) = false := by
      cases failAt with
      | none => rfl
      | some k => have := h k rfl; rw [opFails_some]; simp; omega
    have h2 : opFails failAt (1 + (req.groupIDs.map (groupOps db)).sum + 1) = false := by
      cases failAt with
      | none => rfl
      | some k => have := h k rfl; rw [opFails_some]; simp; omega
    have h3 : opFails failAt (1 + (req.groupIDs.map (groupOps db)).sum + 1 + 1) = false := by
      cases failAt with
      | none => rfl
      | some k => have := h k rfl; rw [opFails_some]; simp; omega
    rw [h1, h2, h3]
    rfl
  · intro k hk
    have := h k hk
    right
    simp
    omega

theorem DeleteAccount_fault (db : DB) (req : DeleteAccountRequest) (now : Nat) (k : Nat)
    (h : k < totalOps db req.groupIDs) :
    ∃ e, DeleteAccount db req now (some k) = (db, Except.error e) := by
  have htot : totalOps db req.groupIDs = 1 + (req.groupIDs.map (groupOps db)).sum + 3 := rfl
  rw [DeleteAccount]
  by_cases hk0 : k = 0
  · rw [hk0, opFails_some]
    simp
  · have h0 : opFails (some k) 0 = false := by rw [opFails_some]; simp [hk0]
    rw [h0]
    simp only [Bool.false_eq_true, if_false]
    by_cases hg : k < 1 + (req.groupIDs.map (groupOps db)).sum
    · obtain ⟨e, he⟩ := runGroups_fault db req.deletedBy now req.groupIDs
        ⟨db, 1, 0, 0, 0, []⟩ k (by simp; omega) (by simp; omega)
      rw [he]
      exact ⟨e, rfl⟩
    · rw [runGroups_frame]
      · rw [runGroups_none]
        simp only []
        by_cases hu : k = 1 + (req.groupIDs.map (groupOps db)).sum
        · have : opFails (some k) (1 + (req.groupIDs.map (groupOps db)).sum) = true := by
            rw [opFails_some]; simp; omega
          rw [this]
          simp
        · have hfu : opFails (some k) (1 + (req.groupIDs.map (groupOps db)).sum) = false := by
            rw [opFails_some]; simp; omega
          rw [hfu]
          simp only [Bool.false_eq_true, if_false]
          by_cases ha : k = 1 + (req.groupIDs.map (groupOps db)).sum + 1
          · have : opFails (some k) (1 + (req.groupIDs.map (groupOps db)).sum + 1) = true := by
              rw [opFails_some]; simp; omega
            rw [this]
            simp
          · have hfa : opFails (some k) (1 + (req.groupIDs.map (groupOps db)).sum + 1) = false := by
              rw [opFails_some]; simp; omega
            rw [hfa]
            simp only [Bool.false_eq_true, if_false]
            have hc : opFails (some k) (1 + (req.groupIDs.map (groupOps db)).sum + 1 + 1) = true := by
              rw [opFails_some]; simp at h ⊢; omega
            rw [hc]
            simp
      · intro k2 hk2
        injection hk2 with hk2
        subst hk2
        right
        simp
        omega

/-- On any error exit the caller keeps the original committed state: the
transaction view is discarded by the deferred rollback. -/
theorem deleteAccount_rollback (db : DB) (req : DeleteAccountRequest) (now : Nat)
    (failAt : Option Nat) (e : String)
    (h : (DeleteAccount db req now failAt).2 = Except.error e) :
    (DeleteAccount db req now failAt).1 = db := by
  cases failAt with
  | none => rw [DeleteAccount_none] at h; simp at h
  | some k =>
    by_cases hk : k < totalOps db req.groupIDs
    · obtain ⟨e2, he2⟩ := DeleteAccount_fault db req now k hk
      rw [he2]
    · rw [DeleteAccount_frame db req now (some k)
        (fun k2 hk2 => by injection hk2 with hk2; omega)] at h
      rw [DeleteAccount_none] at h
      simp at h

instance {E A : Type} [DecidableEq E] [DecidableEq A] : DecidableEq (Except E A) := fun a b =>
  match a, b with
  | Except.error e1, Except.error e2 => decidable_of_iff (e1 = e2) (by simp)
  | Except.error _, Except.ok _ => Decidable.isFalse (by simp)
  | Except.ok _, Except.error _ => Decidable.isFalse (by simp)
  | Except.ok a1, Except.ok a2 => decidable_of_iff (a1 = a2) (by simp)

/-- Example user owning two groups (the spec's lookup/deletion scenario). -/
def exUser : UserProfile :=
  { id := "u1", email := "a@x.com", firstName := "Ann", lastName := "Lee",
    is_deleted := none, deleted_by := none, deleted_on := none }

/-- Example group G1 with one company and two locations. -/
def exG1 : Group :=
  { id := "g1", name := "Group One", parent := "", created_by := "u1", created_on := 1,
    is_deleted := none, deleted_by := none, deleted_on := none }

/-- Example group G2 with no companies. -/
def exG2 : Group :=
  { id := "g2", name := "Group Two", parent := "", created_by := "u1", created_on := 2,
    is_deleted := none, deleted_by := none, deleted_on := none }

/-- Example company C1 under G1. -/
def exC1 : Company :=
  { id := "c1", name := "Comp One", parent := "g1",
    is_deleted := none, deleted_by := none, deleted_on := none }

/-- Example location L1 under C1. -/
def exL1 : Location :=
  { id := "l1", name := "Loc One", parent := "c1",
    is_deleted := none, deleted_by := none, deleted_on := none }

/-- Example location L2 under C1. -/
def exL2 : Location :=
  { id := "l2", name := "Loc Two", parent := "c1",
    is_deleted := none, deleted_by := none, deleted_on := none }

/-- Example database: user u1 owns G1 (C1 with L1, L2) and G2 (empty). -/
def exDb : DB :=
  { users := [exUser], groups := [exG1, exG2], companies := [exC1],
    locations := [exL1, exL2], audit_log := [] }

/-- Example deletion request selecting only G1. -/
def exReq : DeleteAccountRequest :=
  { email := "a@x.com", userID := "u1", groupIDs := ["g1"], reason := "cleanup",
    deletedBy := "admin@corp.com" }

/-- Claim C1: deleteAccount is all-or-nothing.  The call succeeds exactly
when no primitive step (BeginTx, child enumeration, soft-delete UPDATE,
audit INSERT, Commit) fails; on any failure the committed state is exactly
the original database, so no row of any table is modified and no audit
entry exists; on success exactly one audit entry carrying the response's
counts is appended.  Hence an audit entry is written iff the transaction
commits. -/
theorem C1_delete_all_or_nothing (db : DB) (req : DeleteAccountRequest) (now : Nat)
    (failAt : Option Nat) :
    ((∃ r, (DeleteAccount db req now failAt).2 = Except.ok r) ↔
      (∀ k, failAt = some k → totalOps db req.groupIDs ≤ k)) ∧
    (∀ e, (DeleteAccount db req now failAt).2 = Except.error e →
      (DeleteAccount db req now failAt).1 = db) ∧
    (∀ r, (DeleteAccount db req now failAt).2 = Except.ok r →
      ((DeleteAccount db req now failAt).1).audit_log =
        db.audit_log ++ [auditEntry req r.deletedGroups r.deletedCompanies r.deletedLocations now]) := by
  have hok : ∀ r, (DeleteAccount db req now failAt).2 = Except.ok r →
      ∀ k, failAt = some k → totalOps db req.groupIDs ≤ k := by
    intro r hr k hk
    by_contra hlt
    push_neg at hlt
    obtain ⟨e, he⟩ := DeleteAccount_fault db req now k hlt
    rw [hk, he] at hr
    simp at hr
  refine ⟨⟨fun h => ?_, fun h => ?_⟩, fun e he => deleteAccount_rollback db req now failAt e he,
    fun r hr => ?_⟩
  · obtain ⟨r, hr⟩ := h
    exact hok r hr
  · rw [DeleteAccount_frame db req now failAt h, DeleteAccount_none]
    exact ⟨_, rfl⟩
  · have h := hok r hr
    rw [DeleteAccount_frame db req now failAt h, DeleteAccount_none] at hr ⊢
    simp only [Except.ok.injEq] at hr
    subst hr
    simp only []
    rw [DeleteAccountTrace_eq, applyEvents_audit, auditRowsOfTrace_full]

/-- Concrete check of C1: an injected BeginTx failure leaves the example
database untouched, and a fault-free run appends exactly one audit row. -/
theorem C1_delete_all_or_nothing_witness :
    (DeleteAccount exDb exReq 5 (some 0)).1 = exDb ∧
    (DeleteAccount exDb exReq 5 none).1.audit_log =
      exDb.audit_log ++ [auditEntry exReq 1 1 2 5] :=
  ⟨(C1_delete_all_or_nothing exDb exReq 5 (some 0)).2.1 "failed to start transaction" (by decide),
   (C1_delete_all_or_nothing exDb exReq 5 none).2.2
     { success := true, message := "Account and selected hierarchy deleted successfully",
       deletedGroups := 1, deletedCompanies := 1, deletedLocations := 2, deletedAt := 5 }
     (by decide)⟩

/-- Claim C9: deleteAccount never checks that a requested group id exists,
is live, or is owned by the target user.  Over every database, a fault-free
run succeeds, issues one group soft-delete UPDATE per supplied id (in
order), and reports deletedGroups equal to the length of the supplied list. -/
theorem C9_deleted_groups_is_request_length (db : DB) (req : DeleteAccountRequest) (now : Nat) :
    (∃ r, (DeleteAccount db req now none).2 = Except.ok r ∧
      r.deletedGroups = req.groupIDs.length) ∧
    grpIdsOfTrace (DeleteAccountTrace db req now) = req.groupIDs := by
  constructor
  · rw [DeleteAccount_none]
    exact ⟨_, rfl, rfl⟩
  · rw [DeleteAccountTrace_eq, grpIdsOfTrace_full]

/-- Claim C10: child enumerations read the service's plain handle (the
committed snapshot), not the open transaction, so earlier soft-deletes in
the same call are invisible to later enumerations: a group id listed twice
has its companies and locations enumerated, soft-deleted and counted twice,
and the write trace repeats the identical per-group segment. -/
theorem C10_duplicate_group_double_counted (db : DB) (now : Nat)
    (em uid rs act gid : String) :
    (∃ r1 r2,
      (DeleteAccount db { email := em, userID := uid, groupIDs := [gid], reason := rs, deletedBy := act } now none).2 = Except.ok r1 ∧
      (DeleteAccount db { email := em, userID := uid, groupIDs := [gid, gid], reason := rs, deletedBy := act } now none).2 = Except.ok r2 ∧
      r2.deletedGroups = 2 * r1.deletedGroups ∧
      r2.deletedCompanies = 2 * r1.deletedCompanies ∧
      r2.deletedLocations = 2 * r1.deletedLocations) ∧
    groupsTrace db [gid, gid] = groupTrace db gid ++ groupTrace db gid := by
  constructor
  · rw [DeleteAccount_none, DeleteAccount_none]
    refine ⟨_, _, rfl, rfl, ?_, ?_, ?_⟩ <;>
      simp [delCompIds, delLocIds] <;> omega
  · simp [groupsTrace]

/-- Final state of the example database after deleting only G1. -/
def exDbAfter : DB :=
  { users := [markUser "admin@corp.com" 5 exUser]
    groups := [markGroup "admin@corp.com" 5 exG1, exG2]
    companies := [markCompany "admin@corp.com" 5 exC1]
    locations := [markLocation "admin@corp.com" 5 exL1, markLocation "admin@corp.com" 5 exL2]
    audit_log := [auditEntry exReq 1 1 2 5] }

/-- Claim C5: deleting only G1 in the example database reports counts
(1, 1, 2); the final state marks exactly G1, C1, L1, L2 and the user while
G2's row survives byte-for-byte; and over every database and request, every
user row whose id equals the requested user id is soft-deleted by a
fault-free run, regardless of which groups were requested. -/
theorem C5_scenario_and_user_always_deleted :
    (∃ r, (DeleteAccount exDb exReq 5 none).2 = Except.ok r ∧
      r.deletedGroups = 1 ∧ r.deletedCompanies = 1 ∧ r.deletedLocations = 2) ∧
    (DeleteAccount exDb exReq 5 none).1 = exDbAfter ∧
    (∀ (db : DB) (req : DeleteAccountRequest) (now : Nat) (u : UserProfile),
      u ∈ (DeleteAccount db req now none).1.users → u.id = req.userID →
      u.is_deleted = some true) := by
  refine ⟨by rw [DeleteAccount_none]; exact ⟨_, rfl, by decide⟩, by decide, ?_⟩
  intro db req now u hu hid
  rw [DeleteAccount_none] at hu
  simp only [] at hu
  rw [DeleteAccountTrace_eq, applyEvents_users, userIdsOfTrace_full] at hu
  simp only [List.mem_map] at hu
  obtain ⟨u0, _, rfl⟩ := hu
  by_cases h : u0.id ∈ [req.userID]
  · rw [if_pos h]
    rfl
  · rw [if_neg h] at hid ⊢
    exact absurd (List.mem_singleton.mpr hid) h

/-- Concrete check of C5's universal part: the marked example user row is
indeed soft-deleted in the final state. -/
theorem C5_scenario_witness :
    (markUser "admin@corp.com" 5 exUser).is_deleted = some true :=
  C5_scenario_and_user_always_deleted.2.2 exDb exReq 5
    (markUser "admin@corp.com" 5 exUser) (by decide) (by decide)

/-- Claim C6: lookup fails (with the not-found error) exactly when no live
user row matches the email case-insensitively, and the match is
case-insensitive: two emails with the same lowercase form give the same
lookup result.  LookupAccount only reads; its type returns no database. -/
theorem C6_lookup_notfound_case_insensitive (db : DB) (email : String) :
    ((∃ e, LookupAccount db email = Except.error e) ↔
      ¬ ∃ u ∈ db.users, isLive u.is_deleted = true ∧ lowerEq u.email email = true) ∧
    (∀ email2, lowerEq email email2 = true →
      getUserByEmail db email = getUserByEmail db email2) := by
  constructor
  · have hchain : (∃ e, LookupAccount db email = Except.error e) ↔
        getUserByEmail db email = none := by
      cases hu : getUserByEmail db email with
      | none => simp [LookupAccount, hu]
      | some u => simp [LookupAccount, hu]
    rw [hchain, getUserByEmail, List.head?_eq_none_iff, List.filter_eq_nil_iff]
    constructor
    · rintro h ⟨u, hu, hlive, hlow⟩
      exact h u hu (by simp [hlow, hlive])
    · intro h u hu hp
      simp only [Bool.and_eq_true] at hp
      exact h ⟨u, hu, hp.2, hp.1⟩
  · intro email2 h
    have hdata : email.data.map Char.toLower = email2.data.map Char.toLower := by
      simpa [lowerEq] using h
    have hpt : ∀ u : UserProfile, lowerEq u.email email = lowerEq u.email email2 := by
      intro u
      simp [lowerEq, hdata]
    rw [getUserByEmail, getUserByEmail]
    congr 1
    refine List.filter_congr (fun u _ => ?_)
    rw [hpt u]

/-- Concrete check of C6: a different-cased email resolves to the same user. -/
theorem C6_lookup_witness :
    getUserByEmail exDb "A@X.Com" = getUserByEmail exDb "a@x.com" :=
  (C6_lookup_notfound_case_insensitive exDb "A@X.Com").2 "a@x.com" (by decide)

/-- Claim C7: for a matched user, lookup succeeds and returns exactly the
live groups whose created_by reference equals the user id (a permutation of
that filter), sorted newest-created first, each info row carrying the
hierarchy counts; a user with zero live groups yields an empty list, not an
error. -/
theorem C7_lookup_groups (db : DB) (email : String) (u : UserProfile)
    (hu : getUserByEmail db email = some u) :
    ∃ resp, LookupAccount db email = Except.ok resp ∧
      (getGroupsByOwner db u.id).Perm
        (db.groups.filter (fun g => g.created_by == u.id && isLive g.is_deleted)) ∧
      List.Sorted byCreatedOnDesc (getGroupsByOwner db u.id) ∧
      resp.groups = (getGroupsByOwner db u.id).map (fun g =>
        { id := g.id, name := g.name, companyCount := (getHierarchyCounts db g.id).1,
          locationCount := (getHierarchyCounts db g.id).2 }) ∧
      (db.groups.filter (fun g => g.created_by == u.id && isLive g.is_deleted) = [] →
        resp.groups = []) := by
  refine ⟨_, by rw [LookupAccount, hu], List.perm_insertionSort _ _,
    List.sorted_insertionSort _ _, rfl, fun hempty => ?_⟩
  simp [getGroupsByOwner, hempty]

/-- Concrete check of C7: lookup on the example database succeeds. -/
theorem C7_lookup_witness : ∃ resp, LookupAccount exDb "a@x.com" = Except.ok resp := by
  obtain ⟨resp, h1, _⟩ := C7_lookup_groups exDb "a@x.com" exUser (by decide)
  exact ⟨resp, h1⟩

/-- Claim C8: listAuditLogs output is ordered by creation time descending,
and the page (limit 2, offset 0) followed by (limit 2, offset 2) is exactly
the first four entries of the sorted log — the 1st-2nd and 3rd-4th most
recent entries, with no overlap — both pages full given at least 4 entries. -/
theorem C8_audit_pagination (db : DB) (limit offset : Nat) :
    List.Sorted (fun a b : AuditLogView => b.created_at ≤ a.created_at)
      (GetAuditLogs db limit offset) ∧
    GetAuditLogs db 2 0 ++ GetAuditLogs db 2 2 =
      ((List.insertionSort byCreatedAtDesc db.audit_log).take 4).map toAuditLogView ∧
    (4 ≤ db.audit_log.length →
      (GetAuditLogs db 2 0).length = 2 ∧ (GetAuditLogs db 2 2).length = 2) := by
  refine ⟨?_, ?_, fun h4 => ?_⟩
  · have hs : List.Sorted byCreatedAtDesc
        (((List.insertionSort byCreatedAtDesc db.audit_log).drop offset).take limit) :=
      List.Pairwise.sublist
        ((List.take_sublist _ _).trans (List.drop_sublist _ _))
        (List.sorted_insertionSort byCreatedAtDesc db.audit_log)
    rw [GetAuditLogs]
    exact List.pairwise_map.mpr hs
  · rw [GetAuditLogs, GetAuditLogs, show (4 : Nat) = 2 + 2 from rfl, List.take_add,
      List.map_append, List.drop_zero]
  · have hlen := (List.perm_insertionSort byCreatedAtDesc db.audit_log).length_eq
    constructor <;>
      simp [GetAuditLogs, List.length_take, List.length_drop] <;> omega

/-- Example audit table with four entries at distinct times. -/
def exAuditDb : DB :=
  { users := [], groups := [], companies := [], locations := []
    audit_log :=
      [auditEntry exReq 1 1 2 10, auditEntry exReq 1 0 0 20,
       auditEntry exReq 2 1 1 30, auditEntry exReq 0 0 0 40] }

/-- Concrete check of C8: with four stored entries both pages are full. -/
theorem C8_audit_pagination_witness :
    (GetAuditLogs exAuditDb 2 0).length = 2 ∧ (GetAuditLogs exAuditDb 2 2).length = 2 :=
  (C8_audit_pagination exAuditDb 2 0).2.2 (by decide)

theorem countP_or_disjoint {A : Type} (p q : A → Bool) (l : List A)
    (h : ∀ a ∈ l, ¬(p a = true ∧ q a = true)) :
    l.countP (fun a => p a || q a) = l.countP p + l.countP q := by
  induction l with
  | nil => simp
  | cons a l ih =>
    simp only [List.countP_cons]
    rw [ih (fun x hx => h x (List.mem_cons_of_mem a hx))]
    have := h a (List.mem_cons_self a l)
    cases hp : p a <;> cases hq : q a <;> simp_all <;> omega

theorem countP_unique_live {A : Type} (idOf : A → String) (live : A → Bool) (x : String)
    (rows : List A) (hn : (rows.map idOf).Nodup)
    (hex : ∃ r ∈ rows, idOf r = x ∧ live r = true) :
    rows.countP (fun r => live r && (idOf r == x)) = 1 := by
  induction rows with
  | nil => simp at hex
  | cons r rows ih =>
    simp only [List.map_cons, List.nodup_cons] at hn
    obtain ⟨hnotin, hn2⟩ := hn
    obtain ⟨r0, hr0mem, hid, hlive⟩ := hex
    rw [List.countP_cons]
    rcases List.mem_cons.mp hr0mem with heq | hmem
    · subst heq
      have hzero : rows.countP (fun r2 => live r2 && (idOf r2 == x)) = 0 := by
        rw [List.countP_eq_zero]
        intro a ha hpa
        simp only [Bool.and_eq_true, beq_iff_eq] at hpa
        exact hnotin (hid ▸ hpa.2 ▸ List.mem_map_of_mem idOf ha)
      rw [hzero]
      simp [hlive, hid]
    · have hx : x ∈ rows.map idOf := hid ▸ List.mem_map_of_mem idOf hmem
      have hne : (idOf r == x) = false := by
        simp only [beq_eq_false_iff_ne]
        intro hcontra
        exact hnotin (hcontra ▸ hx)
      rw [ih hn2 ⟨r0, hmem, hid, hlive⟩]
      simp [hne]

theorem countP_mem_list {A : Type} (idOf : A → String) (live : A → Bool) (rows : List A)
    (hn : (rows.map idOf).Nodup) :
    ∀ L : List String, L.Nodup →
    (∀ x ∈ L, ∃ r ∈ rows, idOf r = x ∧ live r = true) →
    rows.countP (fun r => live r && decide (idOf r ∈ L)) = L.length := by
  intro L
  induction L with
  | nil => intro _ _; simp
  | cons x L ih =>
    intro hLn hex
    simp only [List.nodup_cons] at hLn
    have hsplit : rows.countP (fun r => live r && decide (idOf r ∈ x :: L)) =
        rows.countP (fun r => (live r && (idOf r == x)) || (live r && decide (idOf r ∈ L))) := by
      apply List.countP_congr
      intro r _
      by_cases h1 : idOf r = x <;> by_cases h2 : idOf r ∈ L <;>
        cases hl : live r <;> simp [h1, h2, hl]
    rw [hsplit, countP_or_disjoint]
    · rw [countP_unique_live idOf live x rows hn (hex x (List.mem_cons_self x L)),
        ih hLn.2 (fun y hy => hex y (List.mem_cons_of_mem x hy))]
      simp [Nat.add_comm]
    · intro r _ hc
      simp only [Bool.and_eq_true, beq_iff_eq, decide_eq_true_eq] at hc
      exact hLn.1 (hc.1.2 ▸ hc.2.2)

/-- Number of group rows whose live-flag flipped from live to deleted
between two states of the group table (rows correspond positionally). -/
def groupFlips (a b : List Group) : Nat :=
  (a.zip b).countP (fun p => isLive p.1.is_deleted && !(isLive p.2.is_deleted))

/-- Number of company rows whose live-flag flipped from live to deleted. -/
def companyFlips (a b : List Company) : Nat :=
  (a.zip b).countP (fun p => isLive p.1.is_deleted && !(isLive p.2.is_deleted))

/-- Number of location rows whose live-flag flipped from live to deleted. -/
def locationFlips (a b : List Location) : Nat :=
  (a.zip b).countP (fun p => isLive p.1.is_deleted && !(isLive p.2.is_deleted))

theorem countP_zip_map {A : Type} (l : List A) (f : A → A) (p : A × A → Bool) :
    (l.zip (l.map f)).countP p = l.countP (fun a => p (a, f a)) := by
  induction l with
  | nil => rfl
  | cons a l ih => simp [List.countP_cons, ih]

theorem nodup_delCompIds (db : DB) (L : List String)
    (hcn : (db.companies.map (fun c => c.id)).Nodup) (hLn : L.Nodup) :
    (delCompIds db L).Nodup := by
  rw [delCompIds, List.nodup_flatMap]
  refine ⟨fun gid _ => List.Nodup.sublist (List.Sublist.map _ (List.filter_sublist _)) hcn,
    hLn.imp ?_⟩
  intro g1 g2 hne x hx1 hx2
  simp only [List.mem_map, getCompaniesByParent, List.mem_filter, Bool.and_eq_true,
    beq_iff_eq] at hx1 hx2
  obtain ⟨c1, ⟨hc1m, hc1p, _⟩, hc1id⟩ := hx1
  obtain ⟨c2, ⟨hc2m, hc2p, _⟩, hc2id⟩ := hx2
  have hceq : c1 = c2 :=
    List.inj_on_of_nodup_map hcn hc1m hc2m (by rw [hc1id, hc2id])
  exact hne (by rw [← hc1p, ← hc2p, hceq])

theorem mem_delCompIds_live (db : DB) (L : List String) (x : String)
    (hx : x ∈ delCompIds db L) :
    ∃ c ∈ db.companies, c.id = x ∧ isLive c.is_deleted = true := by
  simp only [delCompIds, List.mem_flatMap, List.mem_map, getCompaniesByParent,
    List.mem_filter, Bool.and_eq_true, beq_iff_eq] at hx
  obtain ⟨gid, _, c, ⟨hcm, _, hlive⟩, hcid⟩ := hx
  exact ⟨c, hcm, hcid, hlive⟩

theorem nodup_delLocIds (db : DB) (L : List String)
    (hcn : (db.companies.map (fun c => c.id)).Nodup)
    (hln : (db.locations.map (fun l => l.id)).Nodup) (hLn : L.Nodup) :
    (delLocIds db L).Nodup := by
  have loc_inj : ∀ l1 ∈ db.locations, ∀ l2 ∈ db.locations, l1.id = l2.id → l1 = l2 :=
    fun l1 h1 l2 h2 h => List.inj_on_of_nodup_map hln h1 h2 h
  have comp_inj : ∀ c1 ∈ db.companies, ∀ c2 ∈ db.companies, c1.id = c2.id → c1 = c2 :=
    fun c1 h1 c2 h2 h => List.inj_on_of_nodup_map hcn h1 h2 h
  have hlocmem : ∀ (cid x : String), x ∈ (getLocationsByParent db cid).map (fun l => l.id) →
      ∃ l ∈ db.locations, l.id = x ∧ l.parent = cid := by
    intro cid x hx
    simp only [List.mem_map, getLocationsByParent, List.mem_filter, Bool.and_eq_true,
      beq_iff_eq] at hx
    obtain ⟨l, ⟨hlm, hlp, _⟩, hlid⟩ := hx
    exact ⟨l, hlm, hlid, hlp⟩
  have hinner : ∀ gid : String,
      ((getCompaniesByParent db gid).flatMap
        (fun c => (getLocationsByParent db c.id).map (fun l => l.id))).Nodup := by
    intro gid
    rw [List.nodup_flatMap]
    constructor
    · exact fun c _ => List.Nodup.sublist (List.Sublist.map _ (List.filter_sublist _)) hln
    · have hcomps : (getCompaniesByParent db gid).Nodup :=
        List.Nodup.sublist (List.filter_sublist _) (List.Nodup.of_map _ hcn)
      refine List.Pairwise.imp_of_mem ?_ hcomps
      intro c1 c2 hc1mem hc2mem hne x hx1 hx2
      obtain ⟨l1, hl1m, hl1id, hl1p⟩ := hlocmem c1.id x hx1
      obtain ⟨l2, hl2m, hl2id, hl2p⟩ := hlocmem c2.id x hx2
      have hl12 : l1 = l2 := loc_inj l1 hl1m l2 hl2m (by rw [hl1id, hl2id])
      have hc1db : c1 ∈ db.companies := (List.mem_filter.mp hc1mem).1
      have hc2db : c2 ∈ db.companies := (List.mem_filter.mp hc2mem).1
      exact hne (comp_inj c1 hc1db c2 hc2db (by rw [← hl1p, ← hl2p, hl12]))
  rw [delLocIds, List.nodup_flatMap]
  refine ⟨fun gid _ => hinner gid, hLn.imp ?_⟩
  intro g1 g2 hne x hx1 hx2
  simp only [List.mem_flatMap] at hx1 hx2
  obtain ⟨c1, hc1m, hx1⟩ := hx1
  obtain ⟨c2, hc2m, hx2⟩ := hx2
  obtain ⟨l1, hl1m, hl1id, hl1p⟩ := hlocmem c1.id x hx1
  obtain ⟨l2, hl2m, hl2id, hl2p⟩ := hlocmem c2.id x hx2
  have hleq : l1 = l2 := loc_inj l1 hl1m l2 hl2m (by rw [hl1id, hl2id])
  simp only [getCompaniesByParent, List.mem_filter, Bool.and_eq_true, beq_iff_eq] at hc1m hc2m
  have hceq : c1 = c2 := by
    apply comp_inj c1 hc1m.1 c2 hc2m.1
    rw [← hl1p, ← hl2p, hleq]
  exact hne (by rw [← hc1m.2.1, ← hc2m.2.1, hceq])

theorem mem_delLocIds_live (db : DB) (L : List String) (x : String)
    (hx : x ∈ delLocIds db L) :
    ∃ l ∈ db.locations, l.id = x ∧ isLive l.is_deleted = true := by
  simp only [delLocIds, List.mem_flatMap, List.mem_map, getLocationsByParent,
    List.mem_filter, Bool.and_eq_true, beq_iff_eq] at hx
  obtain ⟨gid, _, c, _, l, ⟨hlm, _, hlive⟩, hlid⟩ := hx
  exact ⟨l, hlm, hlid, hlive⟩

/-- Claim C2 (amended): for a successful fault-free run whose requested
group ids are pairwise distinct and each name a live group row, and whose
tables carry unique ids, the three reported counts (also recorded in the
audit entry) equal the number of rows whose live-flag actually flipped in
that transaction.  Without those provisos the counters count soft-delete
statements issued, not rows flipped. -/
theorem C2_counts_equal_flips (db : DB) (req : DeleteAccountRequest) (now : Nat)
    (hreq : req.groupIDs.Nodup)
    (hex : ∀ gid ∈ req.groupIDs, ∃ g ∈ db.groups, g.id = gid ∧ isLive g.is_deleted = true)
    (hgn : (db.groups.map (fun g => g.id)).Nodup)
    (hcn : (db.companies.map (fun c => c.id)).Nodup)
    (hln : (db.locations.map (fun l => l.id)).Nodup) :
    ∃ r, (DeleteAccount db req now none).2 = Except.ok r ∧
      groupFlips db.groups (DeleteAccount db req now none).1.groups = r.deletedGroups ∧
      companyFlips db.companies (DeleteAccount db req now none).1.companies = r.deletedCompanies ∧
      locationFlips db.locations (DeleteAccount db req now none).1.locations = r.deletedLocations ∧
      (DeleteAccount db req now none).1.audit_log =
        db.audit_log ++ [auditEntry req r.deletedGroups r.deletedCompanies r.deletedLocations now] := by
  rw [DeleteAccount_none]
  refine ⟨_, rfl, ?_, ?_, ?_, ?_⟩
  · show groupFlips db.groups
      (applyEvents req.deletedBy now db (DeleteAccountTrace db req now)).groups =
      req.groupIDs.length
    rw [groupFlips, DeleteAccountTrace_eq, applyEvents_groups, grpIdsOfTrace_full,
      countP_zip_map]
    have hpt : ∀ g ∈ db.groups,
        ((isLive g.is_deleted &&
          !(isLive (if g.id ∈ req.groupIDs then markGroup req.deletedBy now g else g).is_deleted)) = true) ↔
        ((isLive g.is_deleted && decide (g.id ∈ req.groupIDs)) = true) := by
      intro g _
      by_cases h : g.id ∈ req.groupIDs <;> cases hl : isLive g.is_deleted <;>
        simp [h, hl, markGroup, isLive] <;> simp_all [isLive]
    rw [List.countP_congr hpt]
    exact countP_mem_list (fun g => g.id) (fun g => isLive g.is_deleted) db.groups hgn
      req.groupIDs hreq hex
  · show companyFlips db.companies
      (applyEvents req.deletedBy now db (DeleteAccountTrace db req now)).companies =
      (delCompIds db req.groupIDs).length
    rw [companyFlips, DeleteAccountTrace_eq, applyEvents_companies, compIdsOfTrace_full,
      countP_zip_map]
    have hpt : ∀ c ∈ db.companies,
        ((isLive c.is_deleted &&
          !(isLive (if c.id ∈ delCompIds db req.groupIDs then markCompany req.deletedBy now c else c).is_deleted)) = true) ↔
        ((isLive c.is_deleted && decide (c.id ∈ delCompIds db req.groupIDs)) = true) := by
      intro c _
      by_cases h : c.id ∈ delCompIds db req.groupIDs <;> cases hl : isLive c.is_deleted <;>
        simp [h, hl, markCompany, isLive] <;> simp_all [isLive]
    rw [List.countP_congr hpt]
    exact countP_mem_list (fun c => c.id) (fun c => isLive c.is_deleted) db.companies hcn
      (delCompIds db req.groupIDs) (nodup_delCompIds db req.groupIDs hcn hreq)
      (mem_delCompIds_live db req.groupIDs)
  · show locationFlips db.locations
      (applyEvents req.deletedBy now db (DeleteAccountTrace db req now)).locations =
      (delLocIds db req.groupIDs).length
    rw [locationFlips, DeleteAccountTrace_eq, applyEvents_locations, locIdsOfTrace_full,
      countP_zip_map]
    have hpt : ∀ l ∈ db.locations,
        ((isLive l.is_deleted &&
          !(isLive (if l.id ∈ delLocIds db req.groupIDs then markLocation req.deletedBy now l else l).is_deleted)) = true) ↔
        ((isLive l.is_deleted && decide (l.id ∈ delLocIds db req.groupIDs)) = true) := by
      intro l _
      by_cases h : l.id ∈ delLocIds db req.groupIDs <;> cases hl : isLive l.is_deleted <;>
        simp [h, hl, markLocation, isLive] <;> simp_all [isLive]
    rw [List.countP_congr hpt]
    exact countP_mem_list (fun l => l.id) (fun l => isLive l.is_deleted) db.locations hln
      (delLocIds db req.groupIDs) (nodup_delLocIds db req.groupIDs hcn hln hreq)
      (mem_delLocIds_live db req.groupIDs)
  · show (applyEvents req.deletedBy now db (DeleteAccountTrace db req now)).audit_log = _
    rw [DeleteAccountTrace_eq, applyEvents_audit, auditRowsOfTrace_full]

/-- Concrete check of C2's amended form on the example database. -/
theorem C2_counts_equal_flips_witness :
    ∃ r, (DeleteAccount exDb exReq 5 none).2 = Except.ok r ∧
      groupFlips exDb.groups (DeleteAccount exDb exReq 5 none).1.groups = r.deletedGroups := by
  obtain ⟨r, h1, h2, _⟩ :=
    C2_counts_equal_flips exDb exReq 5 (by decide) (by decide) (by decide) (by decide) (by decide)
  exact ⟨r, h1, h2⟩

/-- Deletion request naming a group id that matches no row. -/
def exReqGhost : DeleteAccountRequest :=
  { email := "a@x.com", userID := "u1", groupIDs := ["ghost"], reason := "",
    deletedBy := "admin@corp.com" }

/-- Counterexample to C2 as stated: requesting a group id that matches no
row succeeds and reports deletedGroups = 1, while zero group rows flipped. -/
theorem C2_counts_counterexample :
    (DeleteAccount exDb exReqGhost 7 none).2 =
      Except.ok
        { success := true, message := "Account and selected hierarchy deleted successfully",
          deletedGroups := 1, deletedCompanies := 0, deletedLocations := 0, deletedAt := 7 } ∧
    groupFlips exDb.groups (DeleteAccount exDb exReqGhost 7 none).1.groups = 0 := by
  decide

theorem isLive_false {o : Option Bool} (h : ¬ isLive o = true) : o = some true := by
  cases o with
  | none => simp [isLive] at h
  | some b => cases b <;> simp [isLive] at h <;> rfl

theorem final_group_deleted (db : DB) (req : DeleteAccountRequest) (now : Nat) (gid : String)
    (hgid : gid ∈ req.groupIDs) :
    ∀ g ∈ (DeleteAccount db req now none).1.groups, g.id = gid → g.is_deleted = some true := by
  intro g hg hid
  rw [DeleteAccount_none] at hg
  simp only [] at hg
  rw [DeleteAccountTrace_eq, applyEvents_groups, grpIdsOfTrace_full] at hg
  simp only [List.mem_map] at hg
  obtain ⟨g0, _, rfl⟩ := hg
  by_cases h : g0.id ∈ req.groupIDs
  · rw [if_pos h]
    rfl
  · rw [if_neg h] at hid ⊢
    exact absurd (by rw [hid]; exact hgid) h

theorem final_company_deleted (db : DB) (req : DeleteAccountRequest) (now : Nat) (gid : String)
    (hgid : gid ∈ req.groupIDs) :
    ∀ c ∈ (DeleteAccount db req now none).1.companies, c.parent = gid →
      c.is_deleted = some true := by
  intro c hc hpar
  rw [DeleteAccount_none] at hc
  simp only [] at hc
  rw [DeleteAccountTrace_eq, applyEvents_companies, compIdsOfTrace_full] at hc
  simp only [List.mem_map] at hc
  obtain ⟨c0, hc0, rfl⟩ := hc
  by_cases h : c0.id ∈ delCompIds db req.groupIDs
  · rw [if_pos h]
    rfl
  · rw [if_neg h] at hpar ⊢
    by_cases hv : isLive c0.is_deleted = true
    · exfalso
      apply h
      have hc' : c0 ∈ getCompaniesByParent db gid :=
        List.mem_filter.mpr ⟨hc0, by simp [hpar, hv]⟩
      rw [delCompIds]
      exact List.mem_flatMap.mpr ⟨gid, hgid, List.mem_map_of_mem _ hc'⟩
    · exact isLive_false hv

theorem final_location_deleted (db : DB) (req : DeleteAccountRequest) (now : Nat) (gid : String)
    (hgid : gid ∈ req.groupIDs) :
    ∀ l ∈ (DeleteAccount db req now none).1.locations,
      (∃ c ∈ db.companies, c.parent = gid ∧ isLive c.is_deleted = true ∧ l.parent = c.id) →
      l.is_deleted = some true := by
  intro l hl hc
  rw [DeleteAccount_none] at hl
  simp only [] at hl
  rw [DeleteAccountTrace_eq, applyEvents_locations, locIdsOfTrace_full] at hl
  simp only [List.mem_map] at hl
  obtain ⟨l0, hl0, rfl⟩ := hl
  by_cases h : l0.id ∈ delLocIds db req.groupIDs
  · rw [if_pos h]
    rfl
  · rw [if_neg h] at hc ⊢
    obtain ⟨c, hcm, hcp, hcl, hlp⟩ := hc
    by_cases hv : isLive l0.is_deleted = true
    · exfalso
      apply h
      have hc' : c ∈ getCompaniesByParent db gid :=
        List.mem_filter.mpr ⟨hcm, by simp [hcp, hcl]⟩
      have hl' : l0 ∈ getLocationsByParent db c.id :=
        List.mem_filter.mpr ⟨hl0, by simp [hlp, hv]⟩
      rw [delLocIds]
      exact List.mem_flatMap.mpr ⟨gid, hgid,
        List.mem_flatMap.mpr ⟨c, hc', List.mem_map_of_mem _ hl'⟩⟩
    · exact isLive_false hv

theorem final_locations_mono (db : DB) (req : DeleteAccountRequest) (now : Nat) :
    ∀ l ∈ (DeleteAccount db req now none).1.locations,
      ∃ l0 ∈ db.locations, l.id = l0.id ∧ l.parent = l0.parent ∧
        (l0.is_deleted = some true → l.is_deleted = some true) := by
  intro l hl
  rw [DeleteAccount_none] at hl
  simp only [] at hl
  rw [DeleteAccountTrace_eq, applyEvents_locations, locIdsOfTrace_full] at hl
  simp only [List.mem_map] at hl
  obtain ⟨l0, hl0, rfl⟩ := hl
  by_cases h : l0.id ∈ delLocIds db req.groupIDs
  · rw [if_pos h]
    exact ⟨l0, hl0, rfl, rfl, fun _ => rfl⟩
  · rw [if_neg h]
    exact ⟨l0, hl0, rfl, rfl, fun hh => hh⟩

/-- Claim C4 (amended): running deleteAccount twice in sequence on a group
id leaves every company row under that group and every location row whose
parent company was live at the first run soft-deleted after both runs (rows
already deleted keep the flag: the repeated UPDATE just reasserts it), and
the second run still succeeds and still counts the already-processed group
id.  A location under a company that was already soft-deleted before the
first run is never enumerated, so it can stay live — the claim as stated
fails there. -/
theorem C4_rerun_idempotent (db : DB) (req : DeleteAccountRequest) (now1 now2 : Nat)
    (gid : String) (hgid : gid ∈ req.groupIDs) :
    (∀ g ∈ (DeleteAccount (DeleteAccount db req now1 none).1 req now2 none).1.groups,
      g.id = gid → g.is_deleted = some true) ∧
    (∀ c ∈ (DeleteAccount (DeleteAccount db req now1 none).1 req now2 none).1.companies,
      c.parent = gid → c.is_deleted = some true) ∧
    (∀ l ∈ (DeleteAccount (DeleteAccount db req now1 none).1 req now2 none).1.locations,
      (∃ c ∈ db.companies, c.parent = gid ∧ isLive c.is_deleted = true ∧ l.parent = c.id) →
      l.is_deleted = some true) ∧
    (∃ r2, (DeleteAccount (DeleteAccount db req now1 none).1 req now2 none).2 = Except.ok r2 ∧
      r2.deletedGroups = req.groupIDs.length) := by
  refine ⟨final_group_deleted _ req now2 gid hgid,
    final_company_deleted _ req now2 gid hgid, ?_, ?_⟩
  · intro l hl hc
    obtain ⟨l1, hl1, _, hpar, hmono⟩ := final_locations_mono _ req now2 l hl
    refine hmono (final_location_deleted db req now1 gid hgid l1 hl1 ?_)
    obtain ⟨c, hcm, h1, h2, h3⟩ := hc
    exact ⟨c, hcm, h1, h2, by rw [← hpar]; exact h3⟩
  · rw [DeleteAccount_none]
    exact ⟨_, rfl, rfl⟩

/-- Concrete check of C4's amended form: on the example database the second
run still succeeds and counts G1 again. -/
theorem C4_rerun_witness :
    ∃ r2, (DeleteAccount (DeleteAccount exDb exReq 1 none).1 exReq 2 none).2 = Except.ok r2 ∧
      r2.deletedGroups = 1 := by
  obtain ⟨_, _, _, h⟩ := C4_rerun_idempotent exDb exReq 1 2 "g1" (by decide)
  exact h

/-- Company row already soft-deleted before any run. -/
def exC1dead : Company :=
  { id := "c1", name := "Comp One", parent := "g1"
    is_deleted := some true, deleted_by := some "old", deleted_on := some 0 }

/-- Database whose group G1 holds the dead company and a live location. -/
def exDb4 : DB :=
  { users := [exUser], groups := [exG1], companies := [exC1dead]
    locations := [exL1], audit_log := [] }

/-- Request used for the C4 counterexample. -/
def exReq4 : DeleteAccountRequest :=
  { email := "a@x.com", userID := "u1", groupIDs := ["g1"], reason := "",
    deletedBy := "admin@corp.com" }

/-- Counterexample to C4 as stated: a live location under an already-deleted
company of the requested group is never enumerated, so after running the
deletion twice that location row of the group's hierarchy is still live. -/
theorem C4_rerun_counterexample :
    ((DeleteAccount (DeleteAccount exDb4 exReq4 1 none).1 exReq4 2 none).1.locations.any
      (fun l => l.parent == "c1" && isLive l.is_deleted)) = true := by
  decide

/-- Event `e1` occurs no later than (every occurrence of) event `e2` in
trace `t`: every cut of `t` whose left part contains `e2` contains `e1`. -/
def before (e1 e2 : Event) (t : List Event) : Prop :=
  ∀ p q, t = p ++ q → e2 ∈ p → e1 ∈ p

theorem before_of_not_mem (e1 e2 : Event) (t : List Event) (h : e2 ∉ t) : before e1 e2 t := by
  intro p q hpq hp
  exact absurd (by rw [hpq]; exact List.mem_append.mpr (Or.inl hp)) h

theorem before_append_left (e1 e2 : Event) (a b : List Event)
    (h1 : e1 ∈ a) (h2 : e2 ∉ a) : before e1 e2 (a ++ b) := by
  intro p q hpq hp
  rcases List.append_eq_append_iff.mp hpq with ⟨a2, hpa, _⟩ | ⟨c2, hap, _⟩
  · rw [hpa]
    exact List.mem_append.mpr (Or.inl h1)
  · exact absurd (by rw [hap]; exact List.mem_append.mpr (Or.inl hp)) h2

theorem before_extend (e1 e2 : Event) (a b : List Event)
    (h : before e1 e2 a) (h1 : e1 ∈ a) : before e1 e2 (a ++ b) := by
  intro p q hpq hp
  rcases List.append_eq_append_iff.mp hpq with ⟨a2, hpa, _⟩ | ⟨c2, hap, _⟩
  · rw [hpa]
    exact List.mem_append.mpr (Or.inl h1)
  · exact h p c2 hap hp

theorem before_skip (e1 e2 : Event) (a b : List Event)
    (h2 : e2 ∉ a) (h : before e1 e2 b) : before e1 e2 (a ++ b) := by
  intro p q hpq hp
  rcases List.append_eq_append_iff.mp hpq with ⟨a2, hpa, hb⟩ | ⟨c2, hap, _⟩
  · subst hpa
    rcases List.mem_append.mp hp with hin | hin
    · exact absurd hin h2
    · exact List.mem_append.mpr (Or.inr (h a2 q hb hin))
  · exact absurd (by rw [hap]; exact List.mem_append.mpr (Or.inl hp)) h2

theorem delGroup_not_mem_compsTrace (db : DB) (comps : List Company) (g : String) :
    Event.delGroup g ∉ comps.flatMap (companyTrace db) := by
  simp [companyTrace, List.mem_flatMap]

theorem delCompany_mem_compsTrace (db : DB) (comps : List Company) (X : String) :
    Event.delCompany X ∈ comps.flatMap (companyTrace db) ↔ ∃ c ∈ comps, c.id = X := by
  simp [companyTrace, List.mem_flatMap, eq_comm]

theorem delCompany_not_mem_groupTrace (db : DB) (gid X : String)
    (h : ¬ ∃ c ∈ getCompaniesByParent db gid, c.id = X) :
    Event.delCompany X ∉ groupTrace db gid := by
  rw [groupTrace]
  intro hmem
  rcases List.mem_append.mp hmem with hin | hin
  · exact h ((delCompany_mem_compsTrace db _ X).mp hin)
  · simp at hin

theorem delGroup_mem_groupTrace (db : DB) (g gid : String) :
    Event.delGroup gid ∈ groupTrace db g ↔ gid = g := by
  rw [groupTrace]
  simp [delGroup_not_mem_compsTrace, companyTrace, List.mem_flatMap, eq_comm]

theorem before_loc_comp_comps (db : DB) (l : Location) (X : String)
    (hl : l ∈ db.locations) (hlv : isLive l.is_deleted = true) (hp : l.parent = X) :
    ∀ comps : List Company,
      before (Event.delLocation l.id) (Event.delCompany X) (comps.flatMap (companyTrace db)) := by
  intro comps
  induction comps with
  | nil => exact before_of_not_mem _ _ _ (by simp)
  | cons c rest ih =>
    rw [List.flatMap_cons]
    by_cases hcx : c.id = X
    · have hlmem : l ∈ getLocationsByParent db c.id :=
        List.mem_filter.mpr ⟨hl, by simp [hp, hcx, hlv]⟩
      have he1 : Event.delLocation l.id ∈
          (getLocationsByParent db c.id).map (fun l2 => Event.delLocation l2.id) :=
        List.mem_map_of_mem _ hlmem
      have hb : before (Event.delLocation l.id) (Event.delCompany X) (companyTrace db c) := by
        rw [companyTrace]
        exact before_append_left _ _ _ _ he1 (by simp)
      exact before_extend _ _ _ _ hb (by rw [companyTrace]; exact List.mem_append.mpr (Or.inl he1))
    · refine before_skip _ _ _ _ ?_ ih
      rw [companyTrace]
      intro hmem
      rcases List.mem_append.mp hmem with hin | hin
      · simp at hin
      · simp [hcx] at hin
        exact hcx hin.symm

theorem before_loc_comp (db : DB) (gids : List String) (tail : List Event)
    (htail : ∀ X2 : String, Event.delCompany X2 ∉ tail)
    (l : Location) (hl : l ∈ db.locations) (hlv : isLive l.is_deleted = true) (X : String)
    (hp : l.parent = X) :
    before (Event.delLocation l.id) (Event.delCompany X) (groupsTrace db gids ++ tail) := by
  induction gids with
  | nil =>
    simp only [groupsTrace, List.flatMap_nil, List.nil_append]
    exact before_of_not_mem _ _ _ (htail X)
  | cons gid rest ih =>
    have hassoc : groupsTrace db (gid :: rest) ++ tail =
        groupTrace db gid ++ (groupsTrace db rest ++ tail) := by
      simp [groupsTrace, List.append_assoc]
    rw [hassoc]
    by_cases hmem : ∃ c ∈ getCompaniesByParent db gid, c.id = X
    · obtain ⟨c, hcmem, hcid⟩ := hmem
      have hlmem : l ∈ getLocationsByParent db c.id :=
        List.mem_filter.mpr ⟨hl, by simp [hp, hcid, hlv]⟩
      have he1seg : Event.delLocation l.id ∈ groupTrace db gid := by
        rw [groupTrace]
        refine List.mem_append.mpr (Or.inl (List.mem_flatMap.mpr ⟨c, hcmem, ?_⟩))
        rw [companyTrace]
        exact List.mem_append.mpr (Or.inl (List.mem_map_of_mem _ hlmem))
      have hbseg : before (Event.delLocation l.id) (Event.delCompany X) (groupTrace db gid) := by
        rw [groupTrace]
        refine before_extend _ _ _ _ (before_loc_comp_comps db l X hl hlv hp _) ?_
        refine List.mem_flatMap.mpr ⟨c, hcmem, ?_⟩
        rw [companyTrace]
        exact List.mem_append.mpr (Or.inl (List.mem_map_of_mem _ hlmem))
      exact before_extend _ _ _ _ hbseg he1seg
    · exact before_skip _ _ _ _ (delCompany_not_mem_groupTrace db gid X hmem) ih

theorem before_comp_grp (db : DB) (gids : List String) (tail : List Event)
    (htail : ∀ g2 : String, Event.delGroup g2 ∉ tail)
    (c : Company) (hc : c ∈ db.companies) (hcv : isLive c.is_deleted = true) (gid : String)
    (hp : c.parent = gid) :
    before (Event.delCompany c.id) (Event.delGroup gid) (groupsTrace db gids ++ tail) := by
  induction gids with
  | nil =>
    simp only [groupsTrace, List.flatMap_nil, List.nil_append]
    exact before_of_not_mem _ _ _ (htail gid)
  | cons g rest ih =>
    have hassoc : groupsTrace db (g :: rest) ++ tail =
        groupTrace db g ++ (groupsTrace db rest ++ tail) := by
      simp [groupsTrace, List.append_assoc]
    rw [hassoc]
    by_cases hg : gid = g
    · subst hg
      have hcmem : c ∈ getCompaniesByParent db gid :=
        List.mem_filter.mpr ⟨hc, by simp [hp, hcv]⟩
      have he1 : Event.delCompany c.id ∈
          (getCompaniesByParent db gid).flatMap (companyTrace db) :=
        (delCompany_mem_compsTrace db _ c.id).mpr ⟨c, hcmem, rfl⟩
      have hbseg : before (Event.delCompany c.id) (Event.delGroup gid) (groupTrace db gid) := by
        rw [groupTrace]
        exact before_append_left _ _ _ _ he1 (delGroup_not_mem_compsTrace db _ gid)
      exact before_extend _ _ _ _ hbseg (by rw [groupTrace]; exact List.mem_append.mpr (Or.inl he1))
    · refine before_skip _ _ _ _ ?_ ih
      intro hmem
      exact hg ((delGroup_mem_groupTrace db g gid).mp hmem)

theorem mem_locIdsOfTrace (p : List Event) (x : String) :
    x ∈ locIdsOfTrace p ↔ Event.delLocation x ∈ p := by
  rw [locIdsOfTrace, List.mem_filterMap]
  constructor
  · rintro ⟨e, he, hfe⟩
    cases e with
    | delLocation i => simp at hfe; rw [← hfe]; exact he
    | delCompany i => simp at hfe
    | delGroup i => simp at hfe
    | delUser i => simp at hfe
    | auditInsert row => simp at hfe
  · intro h
    exact ⟨Event.delLocation x, h, rfl⟩

theorem mem_compIdsOfTrace (p : List Event) (x : String) :
    x ∈ compIdsOfTrace p ↔ Event.delCompany x ∈ p := by
  rw [compIdsOfTrace, List.mem_filterMap]
  constructor
  · rintro ⟨e, he, hfe⟩
    cases e with
    | delLocation i => simp at hfe
    | delCompany i => simp at hfe; rw [← hfe]; exact he
    | delGroup i => simp at hfe
    | delUser i => simp at hfe
    | auditInsert row => simp at hfe
  · intro h
    exact ⟨Event.delCompany x, h, rfl⟩

theorem mem_grpIdsOfTrace (p : List Event) (x : String) :
    x ∈ grpIdsOfTrace p ↔ Event.delGroup x ∈ p := by
  rw [grpIdsOfTrace, List.mem_filterMap]
  constructor
  · rintro ⟨e, he, hfe⟩
    cases e with
    | delLocation i => simp at hfe
    | delCompany i => simp at hfe
    | delGroup i => simp at hfe; rw [← hfe]; exact he
    | delUser i => simp at hfe
    | auditInsert row => simp at hfe
  · intro h
    exact ⟨Event.delGroup x, h, rfl⟩

/-- Claim C3 (amended): the write trace of a fault-free deleteAccount run is
exactly: for each requested group id in the order supplied, the delete
events of every enumerated location of a company before that company's
delete event, every company segment before the group's delete event; then
the single user delete, then the audit insert — and the committed state is
the replay of that trace.  At every cut of the trace, a company (or group)
delete event that has already occurred is preceded by the delete events of
all its live location (company) children, so no prefix state shows a live
location under a newly soft-deleted company, nor a live company under a
newly soft-deleted group.  The analogous guarantee does NOT hold for groups
under the user: the user row is always soft-deleted while non-requested
live groups survive (see the counterexample). -/
theorem C3_ordered_cascade (db : DB) (req : DeleteAccountRequest) (now : Nat) :
    DeleteAccountTrace db req now =
      req.groupIDs.flatMap (fun gid =>
        (getCompaniesByParent db gid).flatMap (fun c =>
          (getLocationsByParent db c.id).map (fun l => Event.delLocation l.id) ++
            [Event.delCompany c.id]) ++ [Event.delGroup gid]) ++
      [Event.delUser req.userID,
       Event.auditInsert (auditEntry req req.groupIDs.length
         (delCompIds db req.groupIDs).length (delLocIds db req.groupIDs).length now)] ∧
    (DeleteAccount db req now none).1 =
      applyEvents req.deletedBy now db (DeleteAccountTrace db req now) ∧
    (∀ p q, DeleteAccountTrace db req now = p ++ q →
      (∀ X : String, Event.delCompany X ∈ p →
        ∀ l ∈ db.locations, isLive l.is_deleted = true → l.parent = X →
          Event.delLocation l.id ∈ p) ∧
      (∀ gid : String, Event.delGroup gid ∈ p →
        ∀ c ∈ db.companies, isLive c.is_deleted = true → c.parent = gid →
          Event.delCompany c.id ∈ p)) ∧
    (∀ p q, DeleteAccountTrace db req now = p ++ q →
      (∀ cid : String,
        (∃ c ∈ (applyEvents req.deletedBy now db p).companies,
          c.id = cid ∧ ¬ isLive c.is_deleted = true) →
        (∃ c0 ∈ db.companies, c0.id = cid ∧ ¬ isLive c0.is_deleted = true) ∨
        (∀ l ∈ (applyEvents req.deletedBy now db p).locations, l.parent = cid →
          ¬ isLive l.is_deleted = true)) ∧
      (∀ gid : String,
        (∃ g ∈ (applyEvents req.deletedBy now db p).groups,
          g.id = gid ∧ ¬ isLive g.is_deleted = true) →
        (∃ g0 ∈ db.groups, g0.id = gid ∧ ¬ isLive g0.is_deleted = true) ∨
        (∀ c ∈ (applyEvents req.deletedBy now db p).companies, c.parent = gid →
          ¬ isLive c.is_deleted = true))) := by
  have hclosure : ∀ p q, DeleteAccountTrace db req now = p ++ q →
      (∀ X : String, Event.delCompany X ∈ p →
        ∀ l ∈ db.locations, isLive l.is_deleted = true → l.parent = X →
          Event.delLocation l.id ∈ p) ∧
      (∀ gid : String, Event.delGroup gid ∈ p →
        ∀ c ∈ db.companies, isLive c.is_deleted = true → c.parent = gid →
          Event.delCompany c.id ∈ p) := by
    intro p q hsplit
    rw [DeleteAccountTrace_eq] at hsplit
    constructor
    · intro X hX l hl hlv hp
      exact before_loc_comp db req.groupIDs _ (fun X2 => by simp) l hl hlv X hp p q hsplit hX
    · intro gid hgid c hc hcv hp
      exact before_comp_grp db req.groupIDs _ (fun g2 => by simp) c hc hcv gid hp p q hsplit hgid
  refine ⟨by rw [DeleteAccountTrace_eq]; rfl, by rw [DeleteAccount_none], hclosure, ?_⟩
  intro p q hsplit
  constructor
  · rintro cid ⟨c, hcmem, hcid, hcdead⟩
    rw [applyEvents_companies] at hcmem
    obtain ⟨c0, hc0, hceq⟩ := List.mem_map.mp hcmem
    by_cases h0 : isLive c0.is_deleted = true
    · right
      have hin : c0.id ∈ compIdsOfTrace p := by
        by_contra hnin
        rw [if_neg hnin] at hceq
        exact hcdead (hceq ▸ h0)
      have hidc : c0.id = cid := by
        rw [if_pos hin] at hceq
        rw [← hcid, ← hceq]
        rfl
      have hdel : Event.delCompany cid ∈ p := by
        rw [← hidc]
        exact (mem_compIdsOfTrace p c0.id).mp hin
      intro l hlmem hlpar
      rw [applyEvents_locations] at hlmem
      obtain ⟨l0, hl0, hleq⟩ := List.mem_map.mp hlmem
      have hparents : l.parent = l0.parent := by
        by_cases h : l0.id ∈ locIdsOfTrace p
        · rw [if_pos h] at hleq
          rw [← hleq]
          rfl
        · rw [if_neg h] at hleq
          rw [← hleq]
      by_cases hl0v : isLive l0.is_deleted = true
      · have hpar0 : l0.parent = cid := by rw [← hparents]; exact hlpar
        have hmem : Event.delLocation l0.id ∈ p :=
          (hclosure p q hsplit).1 cid hdel l0 hl0 hl0v hpar0
        have hin0 : l0.id ∈ locIdsOfTrace p := (mem_locIdsOfTrace p l0.id).mpr hmem
        rw [if_pos hin0] at hleq
        rw [← hleq]
        simp [markLocation, isLive]
      · by_cases h : l0.id ∈ locIdsOfTrace p
        · rw [if_pos h] at hleq
          rw [← hleq]
          simp [markLocation, isLive]
        · rw [if_neg h] at hleq
          rw [← hleq]
          exact hl0v
    · left
      refine ⟨c0, hc0, ?_, h0⟩
      have hid : c.id = c0.id := by
        by_cases h : c0.id ∈ compIdsOfTrace p
        · rw [if_pos h] at hceq
          rw [← hceq]
          rfl
        · rw [if_neg h] at hceq
          rw [← hceq]
      rw [← hid]
      exact hcid
  · rintro gid ⟨g, hgmem, hgid, hgdead⟩
    rw [applyEvents_groups] at hgmem
    obtain ⟨g0, hg0, hgeq⟩ := List.mem_map.mp hgmem
    by_cases h0 : isLive g0.is_deleted = true
    · right
      have hin : g0.id ∈ grpIdsOfTrace p := by
        by_contra hnin
        rw [if_neg hnin] at hgeq
        exact hgdead (hgeq ▸ h0)
      have hidg : g0.id = gid := by
        rw [if_pos hin] at hgeq
        rw [← hgid, ← hgeq]
        rfl
      have hdel : Event.delGroup gid ∈ p := by
        rw [← hidg]
        exact (mem_grpIdsOfTrace p g0.id).mp hin
      intro c hcmem hcpar
      rw [applyEvents_companies] at hcmem
      obtain ⟨c0, hc0, hceq⟩ := List.mem_map.mp hcmem
      have hparents : c.parent = c0.parent := by
        by_cases h : c0.id ∈ compIdsOfTrace p
        · rw [if_pos h] at hceq
          rw [← hceq]
          rfl
        · rw [if_neg h] at hceq
          rw [← hceq]
      by_cases hc0v : isLive c0.is_deleted = true
      · have hpar0 : c0.parent = gid := by rw [← hparents]; exact hcpar
        have hmem : Event.delCompany c0.id ∈ p :=
          (hclosure p q hsplit).2 gid hdel c0 hc0 hc0v hpar0
        have hin0 : c0.id ∈ compIdsOfTrace p := (mem_compIdsOfTrace p c0.id).mpr hmem
        rw [if_pos hin0] at hceq
        rw [← hceq]
        simp [markCompany, isLive]
      · by_cases h : c0.id ∈ compIdsOfTrace p
        · rw [if_pos h] at hceq
          rw [← hceq]
          simp [markCompany, isLive]
        · rw [if_neg h] at hceq
          rw [← hceq]
          exact hc0v
    · left
      refine ⟨g0, hg0, ?_, h0⟩
      have hid : g.id = g0.id := by
        by_cases h : g0.id ∈ grpIdsOfTrace p
        · rw [if_pos h] at hgeq
          rw [← hgeq]
          rfl
        · rw [if_neg h] at hgeq
          rw [← hgeq]
      rw [← hid]
      exact hgid

/-- Concrete check of C3's prefix-closure on the example run: at the cut
right after the company delete event, the first location's delete event has
already occurred. -/
theorem C3_ordered_cascade_witness :
    Event.delLocation "l1" ∈ (DeleteAccountTrace exDb exReq 5).take 3 :=
  ((C3_ordered_cascade exDb exReq 5).2.2.1 ((DeleteAccountTrace exDb exReq 5).take 3)
      ((DeleteAccountTrace exDb exReq 5).drop 3)
      (List.take_append_drop 3 _).symm).1 "c1" (by decide) exL1 (by decide) (by decide) rfl

/-- Counterexample to C3's final clause as stated: after two of the three
steps of an actual deletion sequence (a prefix of the executed trace), every
user row is soft-deleted while a group owned by that user — not named in the
request — is still live: a live child sits under an already soft-deleted
parent. -/
theorem C3_order_counterexample :
    ((applyEvents "admin@corp.com" 7 exDb ((DeleteAccountTrace exDb exReqGhost 7).take 2)).users.all
      (fun u => u.is_deleted == some true)) = true ∧
    ((applyEvents "admin@corp.com" 7 exDb ((DeleteAccountTrace exDb exReqGhost 7).take 2)).groups.any
      (fun g => g.created_by == "u1" && isLive g.is_deleted)) = true ∧
    (exDb.users.all (fun u => isLive u.is_deleted)) = true ∧
    (DeleteAccountTrace exDb exReqGhost 7).take 2 ++ (DeleteAccountTrace exDb exReqGhost 7).drop 2 =
      DeleteAccountTrace exDb exReqGhost 7 := by
  decide

end AdminDeletion
